import Mathlib

/-!
# Verification of the examiner question-extraction pipeline

This file gives a shallow embedding, in Lean 4, of the text-segmentation and
parsing core of the `examiner` repository (`src/question_parser.py`,
`src/pdf_processor.py`, `src/robust_question_parser.py`), and proves or
refutes the testable properties stated in the specification.

Python strings are modelled as `List Char`.  Python `re` searches are
modelled by hand-written scanners: each concrete regular expression of the
source is translated into a dedicated matcher, written in
continuation-passing style so that the greedy/backtracking behaviour of the
Python engine (leftmost match, greedy quantifiers with backtracking, ordered
alternation) is reproduced exactly.  Floats carrying confidence scores and
similarity ratios are modelled as rationals; all constants involved are
exactly representable and the comparisons at stake are far from the rounding
resolution of IEEE doubles.
-/

set_option maxRecDepth 10000

namespace Examiner

/-- Shorthand: the character list of a string literal. -/
def lstr (s : String) : List Char := s.data

/-- Python `\s` (ASCII range): space, tab, newline, carriage return,
vertical tab, form feed. -/
def isWs (c : Char) : Bool :=
  c == ' ' || c == '\t' || c == '\n' || c == '\r' || c == '\x0b' || c == '\x0c'

/-- Python `\d` (ASCII). -/
def isDigitB (c : Char) : Bool := c.isDigit

/-- Python `[A-Za-z]` (ASCII). -/
def isAlphaB (c : Char) : Bool := c.isAlpha

/-- Python `\w` (ASCII range): letters, digits, underscore. -/
def isWordB (c : Char) : Bool := c.isAlphanum || c == '_'

/-- ASCII lower-casing of a character (Python `str.lower` on ASCII text). -/
def lowC (c : Char) : Char := c.toLower

/-- ASCII lower-casing of a string. -/
def lowS (l : List Char) : List Char := l.map lowC

/-- ASCII upper-casing of a string (Python `str.upper`). -/
def upS (l : List Char) : List Char := l.map Char.toUpper

/-- Remove trailing whitespace (the right half of Python `str.strip`). -/
def trimRight : List Char → List Char
  | [] => []
  | c :: cs =>
    let r := trimRight cs
    if r = [] ∧ isWs c then [] else c :: r

/-- Python `str.strip()`: drop leading and trailing whitespace. -/
def strip (l : List Char) : List Char := trimRight (l.dropWhile isWs)

/-- Python `str.split('\n')`: split at every newline, keeping empty pieces. -/
def splitLines : List Char → List (List Char)
  | [] => [[]]
  | c :: cs =>
    if c = '\n' then [] :: splitLines cs
    else
      match splitLines cs with
      | [] => [[c]]
      | l :: ls => (c :: l) :: ls

/-- `'\n'.join(lines)` (Python). -/
def joinNl (ls : List (List Char)) : List Char := List.intercalate [ '\n' ] ls

/-- `' '.join(parts)` (Python). -/
def joinSp (ls : List (List Char)) : List Char := List.intercalate [ ' ' ] ls

/-- Does `p` occur as a prefix of `l` (character-exact)? -/
def isPrefixB : List Char → List Char → Bool
  | [], _ => true
  | _ :: _, [] => false
  | p :: ps, c :: cs => p == c && isPrefixB ps cs

/-- Does `pat` occur as a contiguous substring of `l` (Python `pat in l`)? -/
def containsSub (pat : List Char) : List Char → Bool
  | [] => isPrefixB pat []
  | c :: cs => isPrefixB pat (c :: cs) || containsSub pat cs

/-- Case-insensitive substring test (Python `re.search` on a literal pattern
with `re.IGNORECASE`, used only for a boolean result). -/
def containsSubCI (pat l : List Char) : Bool := containsSub (lowS pat) (lowS l)

/-- Drop a literal off the front of the text, character-exact. -/
def dropLit : List Char → List Char → Option (List Char)
  | [], l => some l
  | _ :: _, [] => none
  | p :: ps, c :: cs => if p == c then dropLit ps cs else none

/-- Numeric value of a digit string (Python `int(...)` on a `\d+` capture). -/
def natOfDigits (l : List Char) : Nat :=
  l.foldl (fun acc c => 10 * acc + (c.toNat - 48)) 0

/-- Little-endian decimal digits of `n` as characters (fuel-based so that
the kernel can evaluate it; `fuel ≥ n` suffices). -/
def natReprAux : Nat → Nat → List Char
  | 0, _ => []
  | fuel + 1, n =>
    if n = 0 then []
    else Char.ofNat (48 + n % 10) :: natReprAux fuel (n / 10)

/-- Decimal rendering of a natural number, as produced by a Python
f-string interpolation of `n`. -/
def natRepr (n : Nat) : List Char :=
  if n = 0 then [ '0' ] else (natReprAux n n).reverse

/-!
## Regular-expression scanners

Continuation-passing matchers.  A matcher consumes input at the current
position and hands the remaining input to its continuation; quantifiers
enumerate candidate splits in the order the Python backtracking engine
would try them (greedy: longest first; ordered alternation: left branch
first).  A pattern matches at a position iff the fully assembled matcher,
applied with the trivial continuation, returns `some`.
-/

/-- Try a list of drop amounts in order, first success wins. -/
def tryDrops {α : Type} (k : List Char → Option α) (l : List Char) :
    List Nat → Option α
  | [] => none
  | d :: ds => (k (l.drop d)).orElse fun _ => tryDrops k l ds

/-- `[n, n-1, ..., 0]`. -/
def descFrom0 (n : Nat) : List Nat := (List.range (n + 1)).reverse

/-- `[n, n-1, ..., m]` (empty if `n < m`). -/
def descFromM (m n : Nat) : List Nat :=
  ((List.range (n + 1 - m)).map (· + m)).reverse

/-- `f*` for a character class `f`, greedy with backtracking. -/
def clsStar {α : Type} (f : Char → Bool) (k : List Char → Option α)
    (l : List Char) : Option α :=
  tryDrops k l (descFrom0 (l.takeWhile f).length)

/-- `f+` for a character class `f`, greedy with backtracking. -/
def clsPlus {α : Type} (f : Char → Bool) (k : List Char → Option α)
    (l : List Char) : Option α :=
  tryDrops k l (descFromM 1 (l.takeWhile f).length)

/-- `f{m,}` for a character class `f`, greedy with backtracking. -/
def clsRep {α : Type} (f : Char → Bool) (m : Nat) (k : List Char → Option α)
    (l : List Char) : Option α :=
  tryDrops k l (descFromM m (l.takeWhile f).length)

/-- A literal (character-exact). -/
def litThen {α : Type} (p : List Char) (k : List Char → Option α)
    (l : List Char) : Option α :=
  match dropLit p l with
  | some r => k r
  | none => none

/-- One character of a class. -/
def oneCls {α : Type} (f : Char → Bool) (k : List Char → Option α)
    (l : List Char) : Option α :=
  match l with
  | [] => none
  | c :: cs => if f c then k cs else none

/-- `(m)?`: greedy option — try with the sub-matcher first. -/
def optThen {α : Type}
    (m : (List Char → Option α) → List Char → Option α)
    (k : List Char → Option α) (l : List Char) : Option α :=
  (m k l).orElse fun _ => k l

/-- Ordered alternation of literals (e.g. `(years?|months?|...)` expanded
into the candidate literals in the order the engine tries them). -/
def altLits {α : Type} (cands : List (List Char)) (k : List Char → Option α)
    (l : List Char) : Option α :=
  match cands with
  | [] => none
  | p :: ps => (litThen p k l).orElse fun _ => altLits ps k l

/-- Un-anchored search for a boolean matcher: does the pattern match at some
position (Python `re.search`)? -/
def searchB (m : List Char → Bool) : List Char → Bool
  | [] => m []
  | c :: cs => m (c :: cs) || searchB m cs

/-- Un-anchored leftmost search for a capturing matcher. -/
def searchCap {α : Type} (m : List Char → Option α) : List Char → Option α
  | [] => m []
  | c :: cs => (m (c :: cs)).orElse fun _ => searchCap m cs

/-- Drop a literal off the front, ASCII case-insensitively; the remainder
keeps its original case. -/
def dropLitCI : List Char → List Char → Option (List Char)
  | [], l => some l
  | _ :: _, [] => none
  | p :: ps, c :: cs => if lowC p == lowC c then dropLitCI ps cs else none

/-- Case-insensitive literal matcher in continuation style. -/
def litThenCI {α : Type} (p : List Char) (k : List Char → Option α)
    (l : List Char) : Option α :=
  match dropLitCI p l with
  | some r => k r
  | none => none

/-- Is `p` a case-insensitive prefix of `l`? -/
def isPrefixCIB (p l : List Char) : Bool := (dropLitCI p l).isSome

/-- Accepting continuation for boolean matchers. -/
def doneK : List Char → Option Unit := fun _ => some ()

/-- Accepting continuation that reports the unconsumed remainder (used to
recover the extent of a match). -/
def kRest : List Char → Option (List Char) := fun l => some l

/-!
## `question_parser.py` — data structures
-/

/-- The `Question` dataclass of `question_parser.py`.  The float
`confidence_score` is modelled by its exact value in hundredths (a `Nat`):
every constant the scorer adds is a multiple of 0.05, so the arithmetic is
exact, and each threshold comparison of the source agrees with the
hundredths comparison. -/
structure QuestionR where
  unique_id : List Char := []
  original_number : List Char := []
  description : List Char := []
  options : List (Char × List Char) := []
  community_answer : List Char := []
  highly_voted_answer : List Char := []
  most_recent_answer : List Char := []
  claude_answer : List Char := []
  claude_reasoning : List Char := []
  latest_date : List Char := []
  topic : List Char := []
  page_number : Nat := 0
  confidence_score : Nat := 0
  source : List Char := []
  raw_content : List Char := []
  source_pdf_path : List Char := []
  introductory_info : List Char := []
  has_claude_answer : Bool := false
deriving DecidableEq

/-- The `CommunityComment` dataclass of `question_parser.py`. -/
structure CommentR where
  question_id : List Char := []
  username : List Char := []
  content : List Char := []
  timestamp : List Char := []
  vote_count : Nat := 0
  vote_type : List Char := []
  page_number : Nat := 0
  source : List Char := []
deriving DecidableEq

/-!
## `_extract_question_number` and `_extract_topic`
-/

/-- `Question\s*#(\d+)` at one position (IGNORECASE). -/
def qnumAt1 (l : List Char) : Option (List Char) :=
  match dropLitCI (lstr "question") l with
  | none => none
  | some r =>
    match r.dropWhile isWs with
    | '#' :: r2 =>
      let d := r2.takeWhile isDigitB
      if d = [] then none else some d
    | _ => none

/-- `Question\s+(\d+)` at one position (IGNORECASE). -/
def qnumAt2 (l : List Char) : Option (List Char) :=
  match dropLitCI (lstr "question") l with
  | none => none
  | some r =>
    let w := (r.takeWhile isWs).length
    if w = 0 then none
    else
      let d := (r.drop w).takeWhile isDigitB
      if d = [] then none else some d

/-- `(\d+)\.\s` at one position. -/
def qnumAt3 (l : List Char) : Option (List Char) :=
  let d := l.takeWhile isDigitB
  if d = [] then none
  else
    match l.drop d.length with
    | '.' :: c :: _ => if isWs c then some d else none
    | _ => none

/-- `QuestionParser._extract_question_number`: three patterns tried in
order, leftmost match of the first pattern that fires anywhere. -/
def extractQuestionNumber (text : List Char) : Option (List Char) :=
  (searchCap qnumAt1 text).orElse fun _ =>
  (searchCap qnumAt2 text).orElse fun _ =>
  searchCap qnumAt3 text

/-- `Topic\s+(\d+)` at one position (IGNORECASE). -/
def topicAt (l : List Char) : Option (List Char) :=
  match dropLitCI (lstr "topic") l with
  | none => none
  | some r =>
    let w := (r.takeWhile isWs).length
    if w = 0 then none
    else
      let d := (r.drop w).takeWhile isDigitB
      if d = [] then none else some d

/-- The fixed GCP service-name keyword list of `_extract_topic`. -/
def gcpServices : List (List Char) :=
  [lstr "Compute Engine", lstr "Cloud Storage", lstr "BigQuery",
   lstr "Cloud SQL", lstr "Kubernetes", lstr "GKE", lstr "Cloud Functions",
   lstr "App Engine", lstr "Cloud Run", lstr "Dataflow", lstr "Pub/Sub",
   lstr "Firestore"]

/-- `QuestionParser._extract_topic`. -/
def extractTopic (text : List Char) : List Char :=
  match searchCap topicAt text with
  | some d => lstr "Topic " ++ d
  | none =>
    match gcpServices.find? (fun s => containsSub (lowS s) (lowS text)) with
    | some s => s
    | none => lstr "General"

/-!
## `_extract_answer_options`
-/

/-- `[A-F]` with IGNORECASE. -/
def isOptLetterCI (c : Char) : Bool :=
  let u := c.toUpper
  65 ≤ u.toNat && u.toNat ≤ 70

/-- `(.+)` at one position: one or more non-newline characters, greedy. -/
def dotPlusAt (l : List Char) : Option (List Char) :=
  match l with
  | [] => none
  | c :: _ =>
    if c = '\n' then none else some (l.takeWhile (fun x => !(x == '\n')))

/-- `\s*(.+)`: greedy whitespace skip with backtracking, then the capture. -/
def optBody (rest : List Char) : Option (List Char) :=
  tryDrops dotPlusAt rest (descFrom0 (rest.takeWhile isWs).length)

/-- `^([A-F])[\.\)]\s*(.+)` with IGNORECASE, applied to one (stripped)
line; the letter is upper-cased as in the source. -/
def parseOptionLine (line : List Char) : Option (Char × List Char) :=
  match line with
  | c :: d :: rest =>
    if isOptLetterCI c && (d == '.' || d == ')') then
      match optBody rest with
      | some cap => some (c.toUpper, cap)
      | none => none
    else none
  | _ => none

/-- `(is the answer|upvoted|months ago|weeks ago|days ago|Selected Answer)`
searched case-insensitively: the false-positive filter on option text. -/
def voteNoise (t : List Char) : Bool :=
  containsSubCI (lstr "is the answer") t || containsSubCI (lstr "upvoted") t ||
  containsSubCI (lstr "months ago") t || containsSubCI (lstr "weeks ago") t ||
  containsSubCI (lstr "days ago") t || containsSubCI (lstr "Selected Answer") t

/-- `[~/\\.]`: the path-or-punctuation character class. -/
def hasPathChar (t : List Char) : Bool :=
  t.any fun c => c == '~' || c == '/' || c == '\\' || c == '.'

/-- Case-insensitive non-overlapping literal replacement, scanning left to
right (Python `re.sub` on a literal pattern with IGNORECASE).  `skip`
counts characters of a previous match still to be consumed without being
re-inspected or emitted. -/
def replScan (pat repl : List Char) (skip : Nat) : List Char → List Char
  | [] => []
  | c :: cs =>
    match skip with
    | n + 1 => replScan pat repl n cs
    | 0 =>
      if isPrefixCIB pat (c :: cs) then
        repl ++ replScan pat repl (pat.length - 1) cs
      else c :: replScan pat repl 0 cs

/-- `re.sub(pat, repl, text, flags=IGNORECASE)` for a literal `pat`. -/
def replaceCI (pat repl text : List Char) : List Char :=
  match pat with
  | [] => text
  | _ :: _ => replScan pat repl 0 text

/-- Apply an ordered table of literal OCR fixes. -/
def applyFixes (fixes : List (List Char × List Char)) (t : List Char) :
    List Char :=
  fixes.foldl (fun acc pr => replaceCI pr.1 pr.2 acc) t

/-- The OCR-fix table local to `_extract_answer_options`. -/
def ocrFixesOpt : List (List Char × List Char) :=
  [(lstr "ConKgure", lstr "Configure"),
   (lstr "ReconKgure", lstr "Reconfigure"),
   (lstr "traOc", lstr "traffic"),
   (lstr "solu\"on", lstr "solution"),
   (lstr "applica\"on", lstr "application"),
   (lstr "ques\"on", lstr "question")]

/-- Python-dict update of the options map: a new letter is appended; an
existing letter is overwritten only by strictly longer text. -/
def updOption (opts : List (Char × List Char)) (k : Char) (v : List Char) :
    List (Char × List Char) :=
  match opts.lookup k with
  | none => opts ++ [(k, v)]
  | some old =>
    if old.length < v.length then
      opts.map fun p => if p.1 == k then (p.1, v) else p
    else opts

/-- One line of `_extract_answer_options`: strip, match the option
pattern, apply the two rejection filters, fix OCR noise, update the map.
(An empty stripped line cannot match the pattern; the source's `continue`
on it is kept.) -/
def optionStep (opts : List (Char × List Char)) (rawLine : List Char) :
    List (Char × List Char) :=
  if strip rawLine = [] then opts
  else
    match parseOptionLine (strip rawLine) with
    | none => opts
    | some (letter, cap) =>
      if voteNoise (strip cap) then opts
      else if (strip cap).length < 2 ∨
          ((strip cap).length < 5 ∧ ¬ hasPathChar (strip cap)) then opts
      else updOption opts letter (applyFixes ocrFixesOpt (strip cap))

/-- `QuestionParser._extract_answer_options`. -/
def extractAnswerOptions (text : List Char) : List (Char × List Char) :=
  (splitLines text).foldl optionStep []

/-!
## Community indicator patterns (`setup_community_patterns`,
`_is_community_comment`)

All patterns are searched with IGNORECASE; matchers below are applied to
the lower-cased line (captures are not needed for the boolean test).
-/

/-- Alternation `(years?|months?|weeks?|days?)` in engine order. -/
def unitsYMWD : List (List Char) :=
  [lstr "years", lstr "year", lstr "months", lstr "month",
   lstr "weeks", lstr "week", lstr "days", lstr "day"]

/-- Alternation `(months?|weeks?|days?)` in engine order. -/
def unitsMWD : List (List Char) :=
  [lstr "months", lstr "month", lstr "weeks", lstr "week",
   lstr "days", lstr "day"]

/-- Alternation `(days?|weeks?|months?|years?)` in engine order. -/
def unitsDWMY : List (List Char) :=
  [lstr "days", lstr "day", lstr "weeks", lstr "week",
   lstr "months", lstr "month", lstr "years", lstr "year"]

/-- The group `(\d+\s+(months?|weeks?|days?))` as a sub-matcher. -/
def grpNumUnit {α : Type} (k : List Char → Option α) (l : List Char) :
    Option α :=
  clsPlus isDigitB (clsPlus isWs (altLits unitsMWD k)) l

/-- `,?\s*(\d+\s+(months?|weeks?|days?))?\s+ago` as a sub-matcher. -/
def agoTail {α : Type} (k : List Char → Option α) (l : List Char) :
    Option α :=
  optThen (litThen [ ',' ])
    (clsStar isWs
      (optThen grpNumUnit
        (clsPlus isWs (litThen (lstr "ago") k)))) l

/-- Pattern 2 (anchored):
`^(\s*)[A-Za-z][A-Za-z0-9_]{2,}\s+\d+\s+(years?|months?|weeks?|days?),?\s*(\d+\s+(months?|weeks?|days?))?\s+ago`. -/
def p2At (l : List Char) : Bool :=
  (clsStar isWs
    (oneCls isAlphaB
      (clsRep isWordB 2
        (clsPlus isWs
          (clsPlus isDigitB
            (clsPlus isWs
              (altLits unitsYMWD (agoTail doneK)))))))) l |>.isSome

/-- Pattern 13 (anchored):
`^(\s*)[A-Za-z][A-Za-z0-9_]{2,}\s+\d+\s+(years?|months?|weeks?|days?)\s+ago`. -/
def p13At (l : List Char) : Bool :=
  (clsStar isWs
    (oneCls isAlphaB
      (clsRep isWordB 2
        (clsPlus isWs
          (clsPlus isDigitB
            (clsPlus isWs
              (altLits unitsYMWD
                (clsPlus isWs (litThen (lstr "ago") doneK))))))))) l |>.isSome

/-- `(Highly\s+Voted|Most\s+Recent)` as a sub-matcher. -/
def hvOrMr {α : Type} (k : List Char → Option α) (l : List Char) :
    Option α :=
  (litThen (lstr "highly") (clsPlus isWs (litThen (lstr "voted") k)) l).orElse
    fun _ => litThen (lstr "most") (clsPlus isWs (litThen (lstr "recent") k)) l

/-- Pattern 12 (anchored):
`^(\s*)[A-Za-z][A-Za-z0-9_]{2,}\s+(Highly\s+Voted|Most\s+Recent)\s+`. -/
def p12At (l : List Char) : Bool :=
  (clsStar isWs
    (oneCls isAlphaB
      (clsRep isWordB 2
        (clsPlus isWs (hvOrMr (clsPlus isWs doneK)))))) l |>.isSome

/-- `Highly\s+Voted` at one position. -/
def hvAt (l : List Char) : Bool :=
  (litThen (lstr "highly") (clsPlus isWs (litThen (lstr "voted") doneK)) l).isSome

/-- `Most\s+Recent` at one position. -/
def mrAt (l : List Char) : Bool :=
  (litThen (lstr "most") (clsPlus isWs (litThen (lstr "recent") doneK)) l).isSome

/-- The two private-use sentinel code points `` and ``. -/
def sentinelA : Char := Char.ofNat 0xF147

/-- See `sentinelA`. -/
def sentinelB : Char := Char.ofNat 0xF007

/-- Pattern 1: `\s*` at one position. -/
def p1At (l : List Char) : Bool :=
  (oneCls (fun c => c == sentinelA)
    (clsStar isWs (oneCls (fun c => c == sentinelB) doneK)) l).isSome

/-- The icon/bullet glyph class of pattern 6. -/
def glyphList : List Char :=
  [Char.ofNat 0x25B6, Char.ofNat 0x25BC, Char.ofNat 0x25BA, Char.ofNat 0x25C4,
   Char.ofNat 0x2B05, Char.ofNat 0x27A1, Char.ofNat 0x1F518, Char.ofNat 0x25A1,
   Char.ofNat 0x25A0, Char.ofNat 0x1F4F7, Char.ofNat 0x1F5BC, Char.ofNat 0x1F4F8]

/-- Pattern 6 (anchored): `^(\s*)[glyph]`. -/
def p6At (l : List Char) : Bool :=
  match l.dropWhile isWs with
  | c :: _ => glyphList.contains c
  | [] => false

/-- The fixed allowlist of known commenter usernames (pattern 7). -/
def knownUsers : List (List Char) :=
  [lstr "Ahmed_Safwat", lstr "SAMBIT", lstr "kopper2019", lstr "ChinaSailor",
   lstr "AzureDP900", lstr "minmin2020", lstr "megumin", lstr "Mahmoud_E",
   lstr "holerina", lstr "BiddlyBdoyng", lstr "nagibator163", lstr "Ausias18",
   lstr "lynx256", lstr "practicioner", lstr "gcparchitect007",
   lstr "Kabiliravi", lstr "ry9280087", lstr "mlantonis", lstr "roastc",
   lstr "hems4all", lstr "AdityaGupta", lstr "zzaric", lstr "Rightsaidfred",
   lstr "bnlcnd", lstr "joe2211", lstr "PeppaPig", lstr "sjmsummer",
   lstr "vincy2202", lstr "AniketD", lstr "mifrah", lstr "JC0926",
   lstr "belly265"]

/-- Pattern 7 (anchored): `^(\s*)(name1|name2|...)` over the allowlist. -/
def p7At (l : List Char) : Bool :=
  let r := l.dropWhile isWs
  knownUsers.any fun u => isPrefixB (lowS u) r

/-- Pattern 8: `https?://[^\s]+` at one position. -/
def urlAt (l : List Char) : Bool :=
  (litThen (lstr "http")
    (optThen (litThen [ 's' ])
      (litThen (lstr "://")
        (clsPlus (fun c => !(isWs c)) doneK))) l).isSome

/-- Pattern 9 (anchored): `^(\s*)[>|\\-]\s*`. -/
def p9At (l : List Char) : Bool :=
  match l.dropWhile isWs with
  | c :: _ => c == '>' || c == '|' || c == '\\' || c == '-'
  | [] => false

/-- Pattern 10: `upvoted\s+\d+\s+times?` at one position. -/
def upvTimesAt (l : List Char) : Bool :=
  (litThen (lstr "upvoted")
    (clsPlus isWs
      (clsPlus isDigitB
        (clsPlus isWs (litThen (lstr "time") doneK)))) l).isSome

/-- Pattern 11: `upvoted\s+\d+` at one position. -/
def upvAt' (l : List Char) : Bool :=
  (litThen (lstr "upvoted") (clsPlus isWs (clsPlus isDigitB doneK)) l).isSome

/-- `QuestionParser._is_community_comment`: strip, the direct sentinel
test, then the thirteen indicator patterns in source order. -/
def isCommunityComment (lraw : List Char) : Bool :=
  let line := strip lraw
  if line = [] then false
  else if line.contains sentinelA || line.contains sentinelB then true
  else
    let low := lowS line
    searchB p1At low || p2At low ||
    (containsSub (lstr "selected answer:") low ||
     containsSub (lstr "highly voted:") low ||
     containsSub (lstr "most recent:") low ||
     containsSub (lstr "community answer:") low) ||
    searchB hvAt low || searchB mrAt low ||
    p6At low || p7At low || searchB urlAt low || p9At low ||
    searchB upvTimesAt low || searchB upvAt' low ||
    p12At low || p13At low

/-!
## `_extract_community_comment` and `_separate_community_comments`
-/

/-- The timestamp group
`(\d+\s+(?:years?|months?|weeks?|days?),?\s*(?:\d+\s+(?:months?|weeks?|days?))?\s+ago)`
(case-sensitive), returning the unconsumed remainder. -/
def tsGroup (l : List Char) : Option (List Char) :=
  clsPlus isDigitB (clsPlus isWs (altLits unitsYMWD (agoTail kRest))) l

/-- The username/timestamp extraction regex of `_extract_community_comment`
(case-sensitive, anchored):
`^(\s*)([A-Za-z][A-Za-z0-9_]{2,})\s+(timestamp-group)`. -/
def usernameTs (l : List Char) : Option (List Char × List Char) :=
  match l.dropWhile isWs with
  | [] => none
  | c :: cs =>
    if isAlphaB c then
      let w := cs.takeWhile isWordB
      if w.length < 2 then none
      else
        let r1 := cs.drop w.length
        let wsr := (r1.takeWhile isWs).length
        if wsr = 0 then none
        else
          let tsStartL := r1.drop wsr
          match tsGroup tsStartL with
          | some rest =>
            some (c :: w, tsStartL.take (tsStartL.length - rest.length))
          | none => none
    else none

/-- `upvoted\s+(\d+)\s+times?` (IGNORECASE) at one position, capturing the
digits. -/
def upvCapAt (l : List Char) : Option (List Char) :=
  match dropLitCI (lstr "upvoted") l with
  | none => none
  | some r =>
    let w1 := (r.takeWhile isWs).length
    if w1 = 0 then none
    else
      let d := (r.drop w1).takeWhile isDigitB
      if d = [] then none
      else
        let r2 := (r.drop w1).drop d.length
        let w2 := (r2.takeWhile isWs).length
        if w2 = 0 then none
        else
          match dropLitCI (lstr "time") (r2.drop w2) with
          | some _ => some d
          | none => none

/-- `QuestionParser._extract_community_comment`. -/
def extractCommunityComment (line qid : List Char) (pg : Nat)
    (src : List Char) : CommentR :=
  let ut := usernameTs line
  let vt :=
    if containsSubCI (lstr "highly voted") line then lstr "Highly Voted"
    else if containsSubCI (lstr "most recent") line then lstr "Most Recent"
    else if containsSubCI (lstr "selected answer") line then
      lstr "Selected Answer"
    else []
  let vc :=
    match searchCap upvCapAt line with
    | some d => natOfDigits d
    | none => 0
  { question_id := qid
    username := match ut with | some (u, _) => u | none => []
    content := strip line
    timestamp := match ut with | some (_, t) => t | none => []
    vote_count := vc
    vote_type := vt
    page_number := pg
    source := src }

/-- The line-classification loop of `_separate_community_comments`. -/
def separateLoop (qid : List Char) (pg : Nat) (src : List Char) :
    List (List Char) → List (List Char) × List CommentR
  | [] => ([], [])
  | l :: ls =>
    let r := separateLoop qid pg src ls
    if isCommunityComment l then
      (r.1, extractCommunityComment l qid pg src :: r.2)
    else (l :: r.1, r.2)

/-- `QuestionParser._separate_community_comments`: split into newline-joined
clean text plus the extracted comment records. -/
def separateCommunityComments (text qid : List Char) (pg : Nat)
    (src : List Char) : List Char × List CommentR :=
  let r := separateLoop qid pg src (splitLines text)
  (joinNl r.1, r.2)

/-!
## `_parse_community_responses`
-/

/-- The `community_data` dictionary. -/
structure CommData where
  community_answer : List Char := []
  highly_voted : List Char := []
  most_recent : List Char := []
  latest_date : List Char := []
deriving DecidableEq

/-- `[A-F]` (upper case only). -/
def isAFu (c : Char) : Bool := 65 ≤ c.toNat && c.toNat ≤ 70

/-- `re.search(r'[A-F](?=\s|$|\.)', l)`: first A–F character followed by
whitespace, a period, or the end of the string. -/
def findVoteLetter : List Char → Option (List Char)
  | [] => none
  | [c] => if isAFu c then some [c] else none
  | c :: d :: rest =>
    if isAFu c && (isWs d || d == '.') then some [c]
    else findVoteLetter (d :: rest)

/-- `re.search(r'^[A-F](?=\s|$|\.)', l)`: the anchored variant. -/
def headVoteLetter (l : List Char) : Option (List Char) :=
  match l with
  | [] => none
  | [c] => if isAFu c then some [c] else none
  | c :: d :: _ => if isAFu c && (isWs d || d == '.') then some [c] else none

/-- Date pattern `(\d{1,2}\s+(?:days?|weeks?|months?|years?)\s+ago)` at one
position, capturing the whole match. -/
def d1At (l : List Char) : Option (List Char) :=
  let d := (l.takeWhile isDigitB).length
  if d = 0 ∨ 2 < d then none
  else
    match clsPlus isWs
        (altLits unitsDWMY (clsPlus isWs (litThen (lstr "ago") kRest)))
        (l.drop d) with
    | some r => some (l.take (l.length - r.length))
    | none => none

/-- Date pattern `(\d{1,2}/\d{1,2}/\d{2,4})` at one position. -/
def d2At (l : List Char) : Option (List Char) :=
  let d1 := (l.takeWhile isDigitB).length
  if d1 = 0 ∨ 2 < d1 then none
  else
    match l.drop d1 with
    | '/' :: r1 =>
      let d2 := (r1.takeWhile isDigitB).length
      if d2 = 0 ∨ 2 < d2 then none
      else
        match r1.drop d2 with
        | '/' :: r2 =>
          let d3 := (r2.takeWhile isDigitB).length
          if d3 < 2 then none
          else some (l.take (d1 + 1 + d2 + 1 + min d3 4))
        | _ => none
    | _ => none

/-- Date pattern `(\d{4}-\d{2}-\d{2})` at one position. -/
def d3At (l : List Char) : Option (List Char) :=
  match l with
  | a :: b :: c :: d :: '-' :: e :: f :: '-' :: g :: h :: _ =>
    if [a, b, c, d, e, f, g, h].all isDigitB then
      some [a, b, c, d, '-', e, f, '-', g, h]
    else none
  | _ => none

/-- One iteration of the `_parse_community_responses` line loop; `next?` is
the following raw line, if any. -/
def commStep (acc : CommData) (lraw : List Char) (next? : Option (List Char)) :
    CommData :=
  let line := lowS (strip lraw)
  let lineU := upS line
  let acc1 :=
    if containsSub (lstr "selected answer") line ||
        containsSub (lstr "correct answer") line then
      match findVoteLetter lineU with
      | some a => { acc with community_answer := a }
      | none =>
        match next? with
        | some nl =>
          match headVoteLetter (upS (strip nl)) with
          | some a => { acc with community_answer := a }
          | none => acc
        | none => acc
    else if containsSub (lstr "highly voted") line then
      match findVoteLetter lineU with
      | some a => { acc with highly_voted := a }
      | none =>
        match next? with
        | some nl =>
          match headVoteLetter (upS (strip nl)) with
          | some a => { acc with highly_voted := a }
          | none => acc
        | none => acc
    else if containsSub (lstr "most recent") line then
      match findVoteLetter lineU with
      | some a => { acc with most_recent := a }
      | none =>
        match next? with
        | some nl =>
          match headVoteLetter (upS (strip nl)) with
          | some a => { acc with most_recent := a }
          | none => acc
        | none => acc
    else acc
  match searchCap d1At line with
  | some dt => { acc1 with latest_date := dt }
  | none =>
    match searchCap d2At line with
    | some dt => { acc1 with latest_date := dt }
    | none =>
      match searchCap d3At line with
      | some dt => { acc1 with latest_date := dt }
      | none => acc1

/-- The loop over lines, carrying the accumulator. -/
def commLoop (acc : CommData) : List (List Char) → CommData
  | [] => acc
  | l :: rest => commLoop (commStep acc l rest.head?) rest

/-- `QuestionParser._parse_community_responses`. -/
def parseCommunityResponses (text : List Char) : CommData :=
  commLoop {} (splitLines text)

/-!
## `_extract_question_description`
-/

/-- Case-sensitive non-overlapping literal replacement (Python
`str.replace`), same scanning discipline as `replScan`. -/
def replScanCS (pat repl : List Char) (skip : Nat) : List Char → List Char
  | [] => []
  | c :: cs =>
    match skip with
    | n + 1 => replScanCS pat repl n cs
    | 0 =>
      if isPrefixB pat (c :: cs) then
        repl ++ replScanCS pat repl (pat.length - 1) cs
      else c :: replScanCS pat repl 0 cs

/-- `text.replace(pat, repl)` (Python) for a non-empty literal `pat`. -/
def replaceLit (pat repl text : List Char) : List Char :=
  match pat with
  | [] => text
  | _ :: _ => replScanCS pat repl 0 text

/-- `re.sub(r'\s+', ' ', text)`: collapse every whitespace run to a single
space.  (The run is emitted as one space once its end is reached; the
result is the same as replacing each run at its start.) -/
def collapseWS : List Char → List Char
  | [] => []
  | [c] => if isWs c then [ ' ' ] else [c]
  | c1 :: c2 :: rest =>
    if isWs c1 then
      if isWs c2 then collapseWS (c2 :: rest)
      else ' ' :: collapseWS (c2 :: rest)
    else c1 :: collapseWS (c2 :: rest)

/-- `Profess.*onal` at one position of a lower-cased text (`.` does not
cross a newline). -/
def professOnalAt (l : List Char) : Bool :=
  isPrefixB (lstr "profess") l &&
    containsSub (lstr "onal") ((l.drop 7).takeWhile (fun c => !(c == '\n')))

/-- `^\d+\s*$` against a whole string (no MULTILINE): a digit run followed
only by whitespace. -/
def numLineFull (l : List Char) : Bool :=
  let d := (l.takeWhile isDigitB).length
  d != 0 && (l.drop d).all isWs

/-- `Page \d+` at one position (IGNORECASE). -/
def pageAt (l : List Char) : Bool :=
  match dropLitCI (lstr "page ") l with
  | some (c :: _) => isDigitB c
  | _ => false

/-- The header/footer noise filter of `_extract_question_description`:
`ExamTopics|Profess.*onal|^\d+\s*$|Page \d+` (IGNORECASE). -/
def headerNoiseDesc (line : List Char) : Bool :=
  let low := lowS line
  containsSub (lstr "examtopics") low || searchB professOnalAt low ||
  numLineFull low || searchB pageAt low

/-- `Question\s*#\s*\d+` at one position (IGNORECASE). -/
def markerAt (l : List Char) : Bool :=
  match dropLitCI (lstr "question") l with
  | some r =>
    match r.dropWhile isWs with
    | '#' :: r2 =>
      match r2.dropWhile isWs with
      | c :: _ => isDigitB c
      | [] => false
    | _ => false
  | none => false

/-- `re.search(r'Question\s*#\s*\d+', l, re.IGNORECASE)`. -/
def markerSearchB (l : List Char) : Bool := searchB markerAt l

/-- `re.match(r'^[A-F][\.\)]\s', line)` (case-sensitive). -/
def optionStartB (l : List Char) : Bool :=
  match l with
  | c :: d :: e :: _ => isAFu c && (d == '.' || d == ')') && isWs e
  | _ => false

/-- `re.search(r'^Topic\s+\d+', line, re.IGNORECASE)` (anchored). -/
def topicStartB (l : List Char) : Bool :=
  match dropLitCI (lstr "topic") l with
  | some r =>
    let w := (r.takeWhile isWs).length
    if w = 0 then false
    else
      match (r.drop w) with
      | c :: _ => isDigitB c
      | [] => false
  | none => false

/-- `re.search(r'^\w+\s+\d+\s+(months?|weeks?|days?)\s+ago', line,
re.IGNORECASE)` (anchored). -/
def tsStartB (l : List Char) : Bool :=
  (clsPlus isWordB
    (clsPlus isWs
      (clsPlus isDigitB
        (clsPlus isWs
          (altLits unitsMWD
            (clsPlus isWs (litThen (lstr "ago") doneK)))))) (lowS l)).isSome

/-- Case-study indicator 1:
`\b\w+\s+is\s+a\s+(web-based\s+)?(company|organization|platform)`.
The word boundary `\b` is dropped: it never changes whether a match exists
somewhere (`\w+` extends to the word start), only where it starts. -/
def cs1At (l : List Char) : Bool :=
  (clsPlus isWordB
    (clsPlus isWs
      (litThen (lstr "is")
        (clsPlus isWs
          (litThen (lstr "a")
            (clsPlus isWs
              (optThen (fun k => litThen (lstr "web-based") (clsPlus isWs k))
                (altLits [lstr "company", lstr "organization",
                          lstr "platform"] doneK)))))))) l |>.isSome

/-- Case-study indicator 2:
`For\s+this\s+question,\s+refer\s+to\s+the\s+\w+\s+case\s+study`. -/
def cs2At (l : List Char) : Bool :=
  (litThen (lstr "for")
    (clsPlus isWs
      (litThen (lstr "this")
        (clsPlus isWs
          (litThen (lstr "question,")
            (clsPlus isWs
              (litThen (lstr "refer")
                (clsPlus isWs
                  (litThen (lstr "to")
                    (clsPlus isWs
                      (litThen (lstr "the")
                        (clsPlus isWs
                          (clsPlus isWordB
                            (clsPlus isWs
                              (litThen (lstr "case")
                                (clsPlus isWs
                                  (litThen (lstr "study")
                                    doneK)))))))))))))))) l).isSome

/-- Case-study indicator 3: `\w+\s+(provides|offers|operates|runs)`. -/
def cs3At (l : List Char) : Bool :=
  (clsPlus isWordB
    (clsPlus isWs
      (altLits [lstr "provides", lstr "offers", lstr "operates", lstr "runs"]
        doneK)) l).isSome

/-- Case-study indicator 4: `case\s+study`. -/
def cs4At (l : List Char) : Bool :=
  (litThen (lstr "case") (clsPlus isWs (litThen (lstr "study") doneK)) l).isSome

/-- Case-study indicator 6: `company\s+background`. -/
def cs6At (l : List Char) : Bool :=
  (litThen (lstr "company")
    (clsPlus isWs (litThen (lstr "background") doneK)) l).isSome

/-- `any(re.search(p, line, re.IGNORECASE) for p in case_study_indicators)`. -/
def csAny (line : List Char) : Bool :=
  let low := lowS line
  searchB cs1At low || searchB cs2At low || searchB cs3At low ||
  searchB cs4At low || containsSub (lstr "scenario") low || searchB cs6At low

/-- `re.search(r'Question Set|Topic \d+', intro_line)` (case-sensitive):
the filter applied to candidate introductory lines. -/
def introNoiseB (l : List Char) : Bool :=
  containsSub (lstr "Question Set") l ||
  searchB (fun r =>
    match dropLit (lstr "Topic ") r with
    | some (c :: _) => isDigitB c
    | _ => false) l

/-- State of the line walk in `_extract_question_description`
(`in_question_section` is assigned in the source but never read). -/
structure DescState where
  questionLines : List (List Char) := []
  introLines : List (List Char) := []
  found : Bool := false

/-- The line walk of `_extract_question_description` (the `break` on an
answer-option line ends the walk). -/
def descWalk (st : DescState) : List (List Char) → DescState
  | [] => st
  | lraw :: rest =>
    let line := strip lraw
    if line = [] then descWalk st rest
    else if isCommunityComment line then descWalk st rest
    else if headerNoiseDesc line then descWalk st rest
    else if markerSearchB line then descWalk { st with found := true } rest
    else if st.found then
      if optionStartB line then st
      else if isCommunityComment line then descWalk st rest
      else descWalk { st with questionLines := st.questionLines ++ [line] } rest
    else
      if ¬ topicStartB line ∧ ¬ tsStartB line ∧ 20 < line.length then
        if csAny line ∨ 30 < line.length then
          descWalk { st with introLines := st.introLines ++ [line] } rest
        else descWalk st rest
      else descWalk st rest

/-- `l[-n:]` (Python). -/
def lastN (n : Nat) (l : List (List Char)) : List (List Char) :=
  l.drop (l.length - n)

/-- OCR fixes of `_extract_question_description`, first block of literal
substitutions, in dictionary order (`Data\^ow` is the literal `Data^ow`). -/
def descFixesA : List (List Char × List Char) :=
  [(lstr "ConKgure", lstr "Configure"),
   (lstr "ReconKgure", lstr "Reconfigure"),
   (lstr "traOc", lstr "traffic"),
   (lstr "Profess\"onal", lstr "Professional"),
   (lstr "solu\"on", lstr "solution"),
   (lstr "applica\"on", lstr "application"),
   (lstr "ques\"on", lstr "question"),
   (lstr "computa\"on", lstr "computation"),
   (lstr "authen\"cation", lstr "authentication"),
   (lstr "informa\"on", lstr "information"),
   (lstr "migra\"on", lstr "migration"),
   (lstr "opera\"ons", lstr "operations"),
   (lstr "Data^ow", lstr "Dataflow"),
   (lstr "Data\"ow", lstr "Dataflow")]

/-- Second block of literal substitutions, after `\^at\s+Kles`. -/
def descFixesB : List (List Char × List Char) :=
  [(lstr "modiKed", lstr "modified"),
   (lstr "deKne", lstr "define"),
   (lstr "Knd", lstr "find"),
   (lstr "KreVox", lstr "Firefox")]

/-- Generic left-to-right non-overlapping rewriting engine.  `step` reports
a replacement and the number of characters consumed beyond the current one. -/
def rewriteGo (step : List Char → Option (List Char × Nat)) (skip : Nat) :
    List Char → List Char
  | [] => []
  | c :: cs =>
    match skip with
    | n + 1 => rewriteGo step n cs
    | 0 =>
      match step (c :: cs) with
      | some (rep, n) => rep ++ rewriteGo step n cs
      | none => c :: rewriteGo step 0 cs

/-- See `rewriteGo`. -/
def rewriteAll (step : List Char → Option (List Char × Nat))
    (l : List Char) : List Char :=
  rewriteGo step 0 l

/-- `\^at\s+Kles` at one position (IGNORECASE), returning the remainder. -/
def caretAtKlesAt (l : List Char) : Option (List Char) :=
  litThen [ '^' ]
    (litThenCI (lstr "at")
      (clsPlus isWs (litThenCI (lstr "Kles") kRest))) l

/-- `re.sub(r'\^at\s+Kles', 'flat files', t, flags=IGNORECASE)`. -/
def fixFlatKles (t : List Char) : List Char :=
  rewriteAll (fun l =>
    match caretAtKlesAt l with
    | some rest => some (lstr "flat files", l.length - rest.length - 1)
    | none => none) t

/-- `ll\s+months?\s+ago` at one position (IGNORECASE). -/
def llMonthsAgoAt (l : List Char) : Option (List Char) :=
  litThenCI (lstr "ll")
    (clsPlus isWs
      (litThenCI (lstr "month")
        (optThen (litThenCI [ 's' ])
          (clsPlus isWs (litThenCI (lstr "ago") kRest))))) l

/-- `re.sub(r'll\s+months?\s+ago', '', t, flags=IGNORECASE)`. -/
def fixLlMonthsAgo (t : List Char) : List Char :=
  rewriteAll (fun l =>
    match llMonthsAgoAt l with
    | some rest => some ([], l.length - rest.length - 1)
    | none => none) t

/-- Ordered alternation of literals matched case-insensitively. -/
def altLitsCI {α : Type} (cands : List (List Char))
    (k : List Char → Option α) (l : List Char) : Option α :=
  match cands with
  | [] => none
  | p :: ps => (litThenCI p k l).orElse fun _ => altLitsCI ps k l

/-- `^\s*\w+\s+\d+\s+(months?|weeks?|days?),?\s*\d*\s*(weeks?|days?)?\s+ago\s*`
at the start of the string (IGNORECASE), returning the remainder. -/
def leadTsAt (l : List Char) : Option (List Char) :=
  clsStar isWs
    (clsPlus isWordB
      (clsPlus isWs
        (clsPlus isDigitB
          (clsPlus isWs
            (altLitsCI unitsMWD
              (optThen (litThen [ ',' ])
                (clsStar isWs
                  (clsStar isDigitB
                    (clsStar isWs
                      (optThen
                        (altLitsCI [lstr "weeks", lstr "week",
                                    lstr "days", lstr "day"])
                        (clsPlus isWs
                          (litThenCI (lstr "ago")
                            (clsStar isWs kRest))))))))))))) l

/-- The `^`-anchored user-timestamp cleanup: at most one replacement, at
the start of the string. -/
def fixLeadingTs (t : List Char) : List Char :=
  match leadTsAt t with
  | some rest => rest
  | none => t

/-- The whole OCR-fix pipeline of `_extract_question_description`, in
dictionary order. -/
def applyDescFixes (t : List Char) : List Char :=
  fixLeadingTs (fixLlMonthsAgo (applyFixes descFixesB
    (fixFlatKles (applyFixes descFixesA t))))

/-- `QuestionParser._extract_question_description`. -/
def extractQuestionDescription (text : List Char) : List Char :=
  let processed := replaceLit (lstr "\\n") (lstr "\n") text
  let st := descWalk {} (splitLines processed)
  let meaningful :=
    (lastN 5 st.introLines).filter fun il =>
      decide (20 < il.length) && !(introNoiseB il)
  let allContent :=
    (if st.introLines = [] then [] else meaningful) ++ st.questionLines
  applyDescFixes (collapseWS (strip (joinSp allContent)))

/-!
## `_calculate_confidence` and `parse_question_structure`
-/

/-- `ans and ans in 'ABCDEF'` (Python: non-empty and a substring). -/
def validAnswer (a : List Char) : Bool :=
  !(a.isEmpty) && containsSub a (lstr "ABCDEF")

/-- Description-quality weight of `_calculate_confidence` (0.4 / 0.2 in
hundredths). -/
def confDesc (q : QuestionR) : Nat :=
  if q.description ≠ [] then
    if 50 ≤ q.description.length then 40
    else if 20 ≤ q.description.length then 20
    else 0
  else 0

/-- Option-completeness weight (0.3 / 0.15 in hundredths). -/
def confOpts (q : QuestionR) : Nat :=
  if 4 ≤ q.options.length then 30
  else if 2 ≤ q.options.length then 15
  else 0

/-- Community-answer weight (0.2 / 0.1 in hundredths). -/
def confComm (q : QuestionR) : Nat :=
  if 2 ≤ ([q.community_answer, q.highly_voted_answer,
      q.most_recent_answer].filter validAnswer).length then 20
  else if 1 ≤ ([q.community_answer, q.highly_voted_answer,
      q.most_recent_answer].filter validAnswer).length then 10
  else 0

/-- Structural-consistency weight (0.1 / 0.05 in hundredths). -/
def confStruct (q : QuestionR) : Nat :=
  if q.original_number ≠ [] ∧ q.topic ≠ [] then 10
  else if q.original_number ≠ [] ∨ q.topic ≠ [] then 5
  else 0

/-- `QuestionParser._calculate_confidence`, in hundredths: the source
weights 0.4 / 0.2 / 0.3 / 0.15 / 0.2 / 0.1 / 0.05 and the cap 1.0 become
40 / 20 / 30 / 15 / 20 / 10 / 5 and 100. -/
def calcConfidence (q : QuestionR) : Nat :=
  min (confDesc q + confOpts q + confComm q + confStruct q) 100

/-- The id format of `parse_question_structure`: letter Q, the page
number, an underscore, then the tag. -/
def mkIdL (page : Nat) (tag : List Char) : List Char :=
  'Q' :: (natRepr page ++ '_' :: tag)

/-- `QuestionParser.parse_question_structure`.  The instance state
`question_counter` is threaded explicitly: the function returns the parsed
question (or `none`), the updated counter, and the community comments
appended to the parser's collection. -/
def parseQuestionStructure (minLen : Nat) (textBlock : List Char)
    (page : Nat) (sourceFile : List Char) (counter : Nat) :
    Option QuestionR × Nat × List CommentR :=
  if textBlock = [] ∨ (strip textBlock).length < minLen then
    (none, counter, [])
  else
    let numQ := extractQuestionNumber textBlock
    let counter' := match numQ with | some _ => counter | none => counter + 1
    let uid :=
      match numQ with
      | some n => mkIdL page n
      | none => mkIdL page (natRepr counter')
    let cd := parseCommunityResponses textBlock
    let sep := separateCommunityComments textBlock uid page sourceFile
    let q : QuestionR :=
      { unique_id := uid
        original_number := match numQ with | some n => n | none => []
        description := extractQuestionDescription textBlock
        options := extractAnswerOptions textBlock
        community_answer := cd.community_answer
        highly_voted_answer := cd.highly_voted
        most_recent_answer := cd.most_recent
        latest_date := cd.latest_date
        topic := extractTopic textBlock
        page_number := page
        source := sourceFile
        raw_content := textBlock
        has_claude_answer := false }
    let q := { q with confidence_score := calcConfidence q }
    (some q, counter', sep.2)

/-- A question-boundary record (`identify_question_boundaries`). -/
structure BoundaryR where
  start_page : Nat := 0
  start_line : Nat := 0
  question_header : List Char := []
  content_lines : List (List Char) := []
  source_file : List Char := []
  full_content : List Char := []
deriving DecidableEq

/-- One step of `parse_questions_from_pages`: given the result `r` of one
`parse_question_structure` call and the continuation `rest` of the loop
(fed the updated counter), keep the question when its confidence reaches
the default `minimum_confidence_score` of 0.3 (30 hundredths), and always
accumulate the community-comment store. -/
def appendRun (r : Option QuestionR × Nat × List CommentR)
    (rest : Nat → List QuestionR × Nat × List CommentR) :
    List QuestionR × Nat × List CommentR :=
  match r.1 with
  | some q =>
    if 30 ≤ q.confidence_score then
      (q :: (rest r.2.1).1, (rest r.2.1).2.1, r.2.2 ++ (rest r.2.1).2.2)
    else ((rest r.2.1).1, (rest r.2.1).2.1, r.2.2 ++ (rest r.2.1).2.2)
  | none => ((rest r.2.1).1, (rest r.2.1).2.1, r.2.2 ++ (rest r.2.1).2.2)

/-- `QuestionParser.parse_questions_from_pages`: parse every boundary's
`full_content`, threading the instance counter. -/
def runParseQuestions (minLen : Nat) :
    List BoundaryR → Nat → List QuestionR × Nat × List CommentR
  | [], counter => ([], counter, [])
  | b :: bs, counter =>
    appendRun
      (parseQuestionStructure minLen b.full_content b.start_page
        b.source_file counter)
      (runParseQuestions minLen bs)

/-!
## `pdf_processor.py` — `clean_pdf_artifacts`

Each `re.sub` of the source becomes one scanner over the generic
non-overlapping rewriting engine `rewriteAll` (or a dedicated walker where
MULTILINE anchors require line-start tracking).
-/

/-- The ExamTopics URL literal. -/
def urlLit : List Char := lstr "https://www.examtopics.com"

/-- `https://www\.examtopics\.com[^\s]*` → removed. -/
def stepUrl (l : List Char) : Option (List Char × Nat) :=
  if isPrefixB urlLit l then
    let rest := l.drop urlLit.length
    let extra := (rest.takeWhile (fun c => !(isWs c))).length
    some ([], urlLit.length + extra - 1)
  else none

/-- `$` with MULTILINE: end of input or just before a newline. -/
def dollarML (r : List Char) : Bool := r.isEmpty || r.head? == some '\n'

/-- `^\d+\s*$` (MULTILINE) at a line-start position: greedy `\s*` with
backtracking against the multiline `$`.  Returns the match length. -/
def tryNumLine (l : List Char) : Option Nat :=
  let d := (l.takeWhile isDigitB).length
  if d = 0 then none
  else
    let rest := l.drop d
    let w := (rest.takeWhile isWs).length
    match (descFrom0 w).find? (fun k => dollarML (rest.drop k)) with
    | some k => some (d + k)
    | none => none

/-- `re.sub(r'^\d+\s*$', '', text, flags=re.MULTILINE)`: the walker tracks
whether the current position follows a newline. -/
def subNumGo (atStart : Bool) (skip : Nat) : List Char → List Char
  | [] => []
  | c :: cs =>
    match skip with
    | n + 1 => subNumGo (c == '\n') n cs
    | 0 =>
      if atStart ∧ isDigitB c then
        match tryNumLine (c :: cs) with
        | some n => subNumGo (c == '\n') (n - 1) cs
        | none => c :: subNumGo (c == '\n') 0 cs
      else c :: subNumGo (c == '\n') 0 cs

/-- `Page \d+` (IGNORECASE) → removed. -/
def stepPage (l : List Char) : Option (List Char × Nat) :=
  match dropLitCI (lstr "page ") l with
  | some r =>
    let d := (r.takeWhile isDigitB).length
    if d = 0 then none else some ([], 5 + d - 1)
  | none => none

/-- `\n\s*\n\s*\n+` at one position: greedy quantifiers, backtracking in
engine order.  Returns the match length. -/
def tripleNlAt (l : List Char) : Option Nat :=
  match l with
  | '\n' :: r1 =>
    (descFrom0 (r1.takeWhile isWs).length).findSome? fun k1 =>
      match r1.drop k1 with
      | '\n' :: r2 =>
        (descFrom0 (r2.takeWhile isWs).length).findSome? fun k2 =>
          match r2.drop k2 with
          | '\n' :: r3 =>
            some (1 + k1 + 1 + k2 + 1 +
              (r3.takeWhile (fun c => c == '\n')).length)
          | _ => none
      | _ => none
  | _ => none

/-- `\n\s*\n\s*\n+` → `\n\n`. -/
def stepTriple (l : List Char) : Option (List Char × Nat) :=
  match tripleNlAt l with
  | some n => some (lstr "\n\n", n - 1)
  | none => none

/-- ` {3,}` → two spaces. -/
def stepSpaces (l : List Char) : Option (List Char × Nat) :=
  let r := (l.takeWhile (fun c => c == ' ')).length
  if 3 ≤ r then some (lstr "  ", r - 1) else none

/-- `(\w+)-\s*\n\s*(\w+)` → `\1\2` (join a hyphenated line wrap). -/
def stepHyphen (l : List Char) : Option (List Char × Nat) :=
  match l with
  | [] => none
  | c :: _ =>
    if isWordB c then
      let w1 := l.takeWhile isWordB
      match l.drop w1.length with
      | '-' :: r1 =>
        let ws := r1.takeWhile isWs
        if ws.contains '\n' then
          let r2 := r1.drop ws.length
          let w2 := r2.takeWhile isWordB
          if w2 = [] then none
          else some (w1 ++ w2, w1.length + 1 + ws.length + w2.length - 1)
        else none
      | _ => none
    else none

/-- `\n[a-zA-Z]\n` → `\n` (standalone single characters). -/
def stepNlLetter (l : List Char) : Option (List Char × Nat) :=
  match l with
  | '\n' :: c :: '\n' :: _ =>
    if isAlphaB c then some (lstr "\n", 2) else none
  | _ => none

/-- `PDFProcessor.clean_pdf_artifacts`: the ten cleanup passes in source
order, then `strip`.  (The `ignore_elements` config value is fetched by the
source but never used.) -/
def cleanPdfArtifacts (text : List Char) : List Char :=
  if text = [] then []
  else
    let t := rewriteAll stepUrl text
    let t := subNumGo true 0 t
    let t := rewriteAll stepPage t
    let t := rewriteAll stepTriple t
    let t := rewriteAll stepSpaces t
    let t := rewriteAll stepHyphen t
    let t := replaceLit (lstr "\r\n") (lstr "\n") t
    let t := replaceLit (lstr "\r") (lstr "\n") t
    let t := rewriteAll stepNlLetter t
    strip t

/-!
## `pdf_processor.py` — `identify_question_boundaries`
-/

/-- A page of extracted text (`PageContent`). -/
structure PageR where
  page_number : Nat := 0
  text : List Char := []
  source_file : List Char := []

/-- The context-noise filter of the backward window:
`ExamTopics|Profess.*onal|Selected Answer:|^\d+\s*$|Page \d+` (IGNORECASE). -/
def bNoise (l : List Char) : Bool :=
  let low := lowS l
  containsSub (lstr "examtopics") low || searchB professOnalAt low ||
  containsSub (lstr "selected answer:") low || numLineFull low ||
  searchB pageAt low

/-- The backward context window: up to 20 lines before the marker,
keeping substantial non-noise lines. -/
def backContext (lines : List (List Char)) (i : Nat) : List (List Char) :=
  ((List.range i).drop (i - 20)).filterMap fun j =>
    let cl := strip (lines.getD j [])
    if cl ≠ [] ∧ 15 < cl.length ∧ !(bNoise cl) ∧ !(tsStartB cl) then some cl
    else none

/-- The forward window: collect non-empty lines until the next marker or
the window (fuel) is exhausted. -/
def fwdCollect (lines : List (List Char)) : Nat → Nat → List (List Char)
  | _, 0 => []
  | j, fuel + 1 =>
    let nl := strip (lines.getD j [])
    if nl = [] then fwdCollect lines (j + 1) fuel
    else if markerSearchB nl then []
    else nl :: fwdCollect lines (j + 1) fuel

/-- One line of the boundary scan: on a marker, close the open span and
open a new one with backward context and forward content. -/
def boundaryStep (pg : PageR) (lines : List (List Char))
    (st : Option BoundaryR × List BoundaryR) (i : Nat) :
    Option BoundaryR × List BoundaryR :=
  let ls := strip (lines.getD i [])
  if markerSearchB ls then
    let acc := match st.1 with | some q => st.2 ++ [q] | none => st.2
    let ctx := backContext lines i ++ [ls] ++
      fwdCollect lines (i + 1) (min lines.length (i + 50) - (i + 1))
    (some { start_page := pg.page_number, start_line := i,
            question_header := ls, content_lines := ctx,
            source_file := pg.source_file, full_content := joinNl ctx }, acc)
  else st

/-- `PDFProcessor.identify_question_boundaries`. -/
def identifyQuestionBoundaries (pages : List PageR) : List BoundaryR :=
  let st := pages.foldl
    (fun st pg =>
      let lines := splitLines pg.text
      (List.range lines.length).foldl (boundaryStep pg lines) st)
    (none, [])
  match st.1 with
  | some q => st.2 ++ [q]
  | none => st.2

/-!
## `robust_question_parser.py` — `_clean_unicode_artifacts`
-/

/-- The private-use-area range `[-]`. -/
def isPuaRange (c : Char) : Bool := 0xF000 ≤ c.toNat && c.toNat ≤ 0xF8FF

/-- The removal passes of `_clean_unicode_artifacts`: the six
`str.replace(ch, '')` calls (each a filter) followed by the private-use
range sweep `re.sub(r'[-]', '', ...)`. -/
def removeArtifacts (text : List Char) : List Char :=
  ((((((text.filter (fun c => !(c == Char.ofNat 0xF147))).filter
      (fun c => !(c == Char.ofNat 0xF007))).filter
      (fun c => !(c == Char.ofNat 0xF0C9))).filter
      (fun c => !(c == Char.ofNat 0x2588))).filter
      (fun c => !(c == Char.ofNat 0x2590))).filter
      (fun c => !(c == Char.ofNat 0x2591))).filter
      (fun c => !(isPuaRange c))

/-- `RobustQuestionParser._clean_unicode_artifacts`: the removals, then
`re.sub(r'\s+', ' ', ...)`, then `strip`. -/
def cleanUnicodeArtifacts (text : List Char) : List Char :=
  if text = [] then text
  else strip (collapseWS (removeArtifacts text))

/-!
## `question_parser.py` — `_calculate_similarity`
-/

/-- Python `str.split()` with no arguments: split on whitespace runs and
drop empty tokens. -/
def pySplitGo (acc : List Char) : List Char → List (List Char)
  | [] => if acc = [] then [] else [acc.reverse]
  | c :: cs =>
    if isWs c then
      if acc = [] then pySplitGo [] cs
      else acc.reverse :: pySplitGo [] cs
    else pySplitGo (c :: acc) cs

/-- See `pySplitGo`. -/
def pySplit (l : List Char) : List (List Char) := pySplitGo [] l

/-- `set(text.lower().split())`. -/
def wordSet (t : List Char) : Finset (List Char) :=
  (pySplit (lowS t)).toFinset

/-- `QuestionParser._calculate_similarity`: word-set Jaccard similarity
over `ℚ`. -/
def calcSimilarity (t1 t2 : List Char) : ℚ :=
  if t1 = [] ∨ t2 = [] then 0
  else if wordSet t1 = ∅ ∨ wordSet t2 = ∅ then 0
  else if 0 < (wordSet t1 ∪ wordSet t2).card then
    ((wordSet t1 ∩ wordSet t2).card : ℚ) / ((wordSet t1 ∪ wordSet t2).card : ℚ)
  else 0

/-!
## Auxiliary notions used by the theorems
-/

/-- ASCII alphanumeric characters (the "alphanumeric content" of the
specification). -/
def isAlnumB (c : Char) : Bool :=
  (65 ≤ c.toNat && c.toNat ≤ 90) || (97 ≤ c.toNat && c.toNat ≤ 122) ||
  (48 ≤ c.toNat && c.toNat ≤ 57)

/-- Whitespace-normal form: every whitespace character is a plain space and
no two whitespace characters are adjacent.  `collapseWS` always produces
this form, and is the identity on it. -/
def WsNorm (l : List Char) : Prop :=
  (∀ c ∈ l, isWs c = true → c = ' ') ∧
  l.Chain' fun a b => ¬(isWs a = true ∧ isWs b = true)

/-- The default `minimum_question_length` of `_get_default_config`. -/
def defaultMinLen : Nat := 50

/-!
## Concrete inputs referenced by the claim theorems
-/

/-- The end-to-end scenario text of the specification (§8). -/
def scenC1 : List Char :=
  lstr "Question #7 Topic 2\nWhat service provides object storage?\nA. Compute Engine\nB. Cloud Storage\nC. BigQuery\nD. Pub/Sub\nSelected Answer: B\nHighly Voted\nbob99 1 year ago\nupvoted 3 times"

/-- A synthetic five-question document whose option lines are at most 15
characters long. -/
def c3PageShort : PageR :=
  { page_number := 1
    source_file := lstr "t.pdf"
    text := lstr "Question #1 Topic 1\nA. opt a1\nB. opt b1\nC. opt c1\nD. opt d1\nQuestion #2 Topic 1\nA. opt a2\nB. opt b2\nC. opt c2\nD. opt d2\nQuestion #3 Topic 1\nA. opt a3\nB. opt b3\nC. opt c3\nD. opt d3\nQuestion #4 Topic 1\nA. opt a4\nB. opt b4\nC. opt c4\nD. opt d4\nQuestion #5 Topic 1\nA. opt a5\nB. opt b5\nC. opt c5\nD. opt d5" }

/-- The same synthetic document with option lines longer than 15
characters. -/
def c3PageLong : PageR :=
  { page_number := 1
    source_file := lstr "t.pdf"
    text := lstr "Question #1 Topic 1\nA. option text number a1\nB. option text number b1\nC. option text number c1\nD. option text number d1\nQuestion #2 Topic 1\nA. option text number a2\nB. option text number b2\nC. option text number c2\nD. option text number d2\nQuestion #3 Topic 1\nA. option text number a3\nB. option text number b3\nC. option text number c3\nD. option text number d3\nQuestion #4 Topic 1\nA. option text number a4\nB. option text number b4\nC. option text number c4\nD. option text number d4\nQuestion #5 Topic 1\nA. option text number a5\nB. option text number b5\nC. option text number c5\nD. option text number d5" }

/-- A text block carrying the printed question number 7 (used twice in one
run to exhibit an id collision). -/
def c9Block : List Char :=
  lstr "Question #7 Topic 1\nWhich choice is the very best answer of all of these?\nA. first choice here\nB. second choice here"

/-- A boundary whose span is `c9Block`. -/
def c9Boundary : BoundaryR :=
  { start_page := 1, full_content := c9Block, source_file := lstr "t.pdf" }

/-- A long block with no detectable question number (fallback-counter id). -/
def c9FallA : BoundaryR :=
  { start_page := 1
    full_content :=
      lstr "the quick brown fox jumped over several lazy sleeping dogs today"
    source_file := lstr "t.pdf" }

/-- See `c9FallA`. -/
def c9FallB : BoundaryR :=
  { start_page := 2
    full_content :=
      lstr "another long block of plain words without any numbered marker inside"
    source_file := lstr "t.pdf" }

/-- A question with a 50-character description, three options, no community
answers, no number and no topic. -/
def qC4 : QuestionR :=
  { description := List.replicate 50 'x'
    options := [('A', lstr "Compute Engine"), ('B', lstr "Cloud Storage"),
                ('C', lstr "BigQuery")] }

/-!
## Shared lemmas on the string primitives
-/

theorem isWs_iff (c : Char) :
    isWs c = true ↔
      c = ' ' ∨ c = '\t' ∨ c = '\n' ∨ c = '\r' ∨ c = '\x0b' ∨ c = '\x0c' := by
  simp only [isWs, Bool.or_eq_true, beq_iff_eq]
  tauto

theorem isWs_not_alnum {c : Char} (h : isWs c = true) : isAlnumB c = false := by
  rcases (isWs_iff c).mp h with h | h | h | h | h | h <;> subst h <;> decide

theorem pua_not_alnum {c : Char} (h : isPuaRange c = true) :
    isAlnumB c = false := by
  simp only [isPuaRange, Bool.and_eq_true, decide_eq_true_eq] at h
  simp only [isAlnumB, Bool.or_eq_false_iff, Bool.and_eq_false_iff,
    decide_eq_false_iff_not, not_le]
  omega

theorem trimRight_isPre (l : List Char) : trimRight l <+: l := by
  induction l with
  | nil => exact ⟨[], rfl⟩
  | cons c cs ih =>
    rw [trimRight]
    split
    · exact ⟨c :: cs, rfl⟩
    · obtain ⟨w, hw⟩ := ih
      exact ⟨w, by rw [List.cons_append, hw]⟩

theorem mem_trimRight {a : Char} {l : List Char} (h : a ∈ trimRight l) :
    a ∈ l := (trimRight_isPre l).subset h

theorem trimRight_eq_nil_iff {l : List Char} :
    trimRight l = [] ↔ ∀ c ∈ l, isWs c = true := by
  induction l with
  | nil => simp [trimRight]
  | cons c cs ih =>
    rw [trimRight]
    split
    · rename_i hsp
      simp only [true_iff, List.mem_cons]
      rintro x (rfl | hx)
      · exact hsp.2
      · exact ih.mp hsp.1 x hx
    · rename_i hsp
      simp only [List.cons_ne_nil, false_iff, not_forall]
      rcases Decidable.em (trimRight cs = []) with h | h
      · have : ¬ isWs c = true := fun hc => hsp ⟨h, hc⟩
        exact ⟨c, List.mem_cons_self c cs, this⟩
      · have h' : ¬ ∀ x ∈ cs, isWs x = true := (not_iff_not.mpr ih).mp h
        push_neg at h'
        obtain ⟨x, hx, hxw⟩ := h'
        exact ⟨x, List.mem_cons_of_mem c hx, by simpa using hxw⟩

theorem trimRight_cons_of_ne_nil {c : Char} {cs : List Char}
    (h : ¬(trimRight cs = [] ∧ isWs c = true)) :
    trimRight (c :: cs) = c :: trimRight cs := by
  rw [trimRight]; simp only [h, if_false]

theorem dropWhile_eq_drop (p : Char → Bool) (l : List Char) :
    l.dropWhile p = l.drop (l.takeWhile p).length := by
  induction l with
  | nil => rfl
  | cons c cs ih =>
    by_cases h : p c <;>
      simp [List.dropWhile_cons, List.takeWhile_cons, h, ih]

theorem dropWhile_idem (p : Char → Bool) (l : List Char) :
    (l.dropWhile p).dropWhile p = l.dropWhile p := by
  induction l with
  | nil => rfl
  | cons c cs ih =>
    by_cases h : p c <;> simp [List.dropWhile_cons, h, ih]

theorem dropTrim_comm (l : List Char) :
    (trimRight l).dropWhile isWs = trimRight (l.dropWhile isWs) := by
  induction l with
  | nil => rfl
  | cons c cs ih =>
    by_cases hw : isWs c
    · rcases Decidable.em (trimRight cs = []) with hnil | hnil
      · rw [trimRight]
        simp only [hnil, hw, and_self, if_true]
        have hall : ∀ x ∈ cs, isWs x = true := trimRight_eq_nil_iff.mp hnil
        have : cs.dropWhile isWs = [] := by
          rw [List.dropWhile_eq_nil_iff]; exact hall
        simp [List.dropWhile_cons, hw, this, trimRight]
      · rw [trimRight_cons_of_ne_nil (fun hc => hnil hc.1)]
        rw [List.dropWhile_cons_of_pos hw, List.dropWhile_cons_of_pos]
        · exact ih
        · exact hw
    · have hw' : isWs c = false := by simpa using hw
      rw [trimRight_cons_of_ne_nil (fun hc => hw hc.2),
        List.dropWhile_cons_of_neg (by simp [hw']),
        List.dropWhile_cons_of_neg (by simp [hw']),
        trimRight_cons_of_ne_nil (fun hc => hw hc.2)]

theorem trimRight_idem (l : List Char) :
    trimRight (trimRight l) = trimRight l := by
  induction l with
  | nil => rfl
  | cons c cs ih =>
    rcases Decidable.em (trimRight cs = [] ∧ isWs c = true) with h | h
    · rw [trimRight]; simp only [h.1, h.2, and_self, if_true]; rfl
    · rw [trimRight_cons_of_ne_nil h, trimRight_cons_of_ne_nil]
      · rw [ih]
      · rw [ih]; exact h

theorem strip_strip (l : List Char) : strip (strip l) = strip l := by
  unfold strip
  rw [dropTrim_comm, dropWhile_idem, trimRight_idem]

theorem mem_strip {a : Char} {l : List Char} (h : a ∈ strip l) : a ∈ l :=
  (List.dropWhile_suffix isWs).subset (mem_trimRight h)

theorem collapseWS_cons_of_neg {c : Char} (cs : List Char)
    (h : isWs c = false) : collapseWS (c :: cs) = c :: collapseWS cs := by
  cases cs with
  | nil => simp [collapseWS, h]
  | cons c2 rest => simp [collapseWS, h]

theorem mem_collapseWS {a : Char} {l : List Char} (h : a ∈ collapseWS l) :
    a ∈ l ∨ a = ' ' := by
  induction l with
  | nil => simp [collapseWS] at h
  | cons c cs ih =>
    cases cs with
    | nil =>
      by_cases hw : isWs c <;> simp_all [collapseWS]
    | cons c2 rest =>
      rw [collapseWS] at h
      split at h
      · split at h
        · rcases ih h with h' | h'
          · exact Or.inl (List.mem_cons_of_mem c h')
          · exact Or.inr h'
        · rcases List.mem_cons.mp h with rfl | h'
          · exact Or.inr rfl
          · rcases ih h' with h'' | h''
            · exact Or.inl (List.mem_cons_of_mem c h'')
            · exact Or.inr h''
      · rcases List.mem_cons.mp h with rfl | h'
        · exact Or.inl (List.mem_cons_self _ _)
        · rcases ih h' with h'' | h''
          · exact Or.inl (List.mem_cons_of_mem c h'')
          · exact Or.inr h''

theorem collapseWS_head_of_neg {c : Char} {l : List Char}
    (h : isWs c = false) :
    ∃ t, collapseWS (c :: l) = c :: t := by
  rw [collapseWS_cons_of_neg l h]; exact ⟨_, rfl⟩

theorem collapseWS_wsNorm (l : List Char) : WsNorm (collapseWS l) := by
  induction l with
  | nil => exact ⟨by simp [collapseWS], List.chain'_nil⟩
  | cons c cs ih =>
    cases cs with
    | nil =>
      by_cases hw : isWs c
      · refine ⟨?_, ?_⟩ <;> simp [collapseWS, hw]
      · refine ⟨?_, ?_⟩ <;> simp_all [collapseWS, hw]
    | cons c2 rest =>
      rw [collapseWS]
      by_cases h1 : isWs c
      · rw [if_pos h1]
        by_cases h2 : isWs c2
        · rw [if_pos h2]; exact ih
        · rw [if_neg h2]
          obtain ⟨t, ht⟩ := @collapseWS_head_of_neg c2 rest
            (by simpa using h2)
          refine ⟨?_, ?_⟩
          · intro x hx hxw
            rcases List.mem_cons.mp hx with rfl | hx'
            · rfl
            · exact ih.1 x hx' hxw
          · rw [ht]
            refine List.chain'_cons.mpr ⟨?_, ?_⟩
            · rintro ⟨_, hc2⟩
              simp only [Bool.not_eq_true] at h2
              rw [h2] at hc2; cases hc2
            · rw [← ht]; exact ih.2
      · rw [if_neg h1]
        have h1' : isWs c = false := by simpa using h1
        refine ⟨?_, ?_⟩
        · intro x hx hxw
          rcases List.mem_cons.mp hx with rfl | hx'
          · rw [h1'] at hxw; cases hxw
          · exact ih.1 x hx' hxw
        · cases hcc : collapseWS (c2 :: rest) with
          | nil => simp
          | cons d t =>
            refine List.chain'_cons.mpr ⟨?_, ?_⟩
            · rintro ⟨hc, _⟩; rw [h1'] at hc; cases hc
            · rw [← hcc]; exact ih.2

theorem collapseWS_eq_self {l : List Char} (h : WsNorm l) :
    collapseWS l = l := by
  induction l with
  | nil => rfl
  | cons c cs ih =>
    have htail : WsNorm cs :=
      ⟨fun x hx => h.1 x (List.mem_cons_of_mem c hx),
       (List.chain'_cons'.mp h.2).2⟩
    cases cs with
    | nil =>
      by_cases hw : isWs c
      · have : c = ' ' := h.1 c (List.mem_cons_self _ _) hw
        subst this; rfl
      · simp [collapseWS, hw]
    | cons c2 rest =>
      by_cases hw : isWs c
      · have hc : c = ' ' := h.1 c (List.mem_cons_self _ _) hw
        have h2 : ¬ isWs c2 = true := by
          have := (List.chain'_cons.mp h.2).1
          intro hc2; exact this ⟨hw, hc2⟩
        rw [collapseWS, if_pos hw, if_neg h2, ih htail, hc]
      · rw [collapseWS, if_neg hw, ih htail]

theorem chain'_dropWhile {R : Char → Char → Prop} {p : Char → Bool}
    {l : List Char} (h : l.Chain' R) : (l.dropWhile p).Chain' R := by
  induction l with
  | nil => exact List.chain'_nil
  | cons c cs ih =>
    by_cases hp : p c = true
    · rw [List.dropWhile_cons_of_pos hp]
      exact ih (List.chain'_cons'.mp h).2
    · rwa [List.dropWhile_cons_of_neg hp]

theorem chain'_trimRight {R : Char → Char → Prop} {l : List Char}
    (h : l.Chain' R) : (trimRight l).Chain' R := by
  induction l with
  | nil => exact List.chain'_nil
  | cons c cs ih =>
    by_cases hc : trimRight cs = [] ∧ isWs c = true
    · rw [trimRight, if_pos hc]; exact List.chain'_nil
    · rw [trimRight_cons_of_ne_nil hc]
      refine List.chain'_cons'.mpr ⟨?_, ih (List.chain'_cons'.mp h).2⟩
      intro y hy
      cases cs with
      | nil => simp [trimRight] at hy
      | cons d ds =>
        by_cases hd : trimRight ds = [] ∧ isWs d = true
        · rw [trimRight, if_pos hd] at hy; simp at hy
        · rw [trimRight_cons_of_ne_nil hd] at hy
          simp only [List.head?_cons, Option.mem_def, Option.some.injEq] at hy
          subst hy
          exact (List.chain'_cons.mp h).1

theorem wsNorm_strip {l : List Char} (h : WsNorm l) : WsNorm (strip l) := by
  have h1 : WsNorm (l.dropWhile isWs) :=
    ⟨fun x hx => h.1 x ((List.dropWhile_suffix isWs).subset hx),
     chain'_dropWhile h.2⟩
  exact ⟨fun x hx => h1.1 x (mem_trimRight hx), chain'_trimRight h1.2⟩

theorem filter_absorb {p q : Char → Bool} {l : List Char}
    (h : ∀ a, q a = true → p a = true) :
    (l.filter p).filter q = l.filter q := by
  induction l with
  | nil => rfl
  | cons c cs ih =>
    by_cases hp : p c
    · rw [List.filter_cons_of_pos hp]
      by_cases hq : q c
      · rw [List.filter_cons_of_pos hq, List.filter_cons_of_pos hq, ih]
      · rw [List.filter_cons_of_neg hq, List.filter_cons_of_neg hq, ih]
    · have hq : ¬ q c = true := fun hq => hp (h c hq)
      rw [List.filter_cons_of_neg hp, List.filter_cons_of_neg hq, ih]

theorem filter_dropWhile {p q : Char → Bool} {l : List Char}
    (h : ∀ a, p a = true → q a = false) :
    (l.dropWhile p).filter q = l.filter q := by
  induction l with
  | nil => rfl
  | cons c cs ih =>
    by_cases hp : p c
    · rw [List.dropWhile_cons_of_pos hp, ih,
        List.filter_cons_of_neg (by simp [h c hp])]
    · rw [List.dropWhile_cons_of_neg hp]

theorem filter_trimRight {q : Char → Bool} {l : List Char}
    (h : ∀ a, isWs a = true → q a = false) :
    (trimRight l).filter q = l.filter q := by
  induction l with
  | nil => rfl
  | cons c cs ih =>
    rcases Decidable.em (trimRight cs = [] ∧ isWs c = true) with hc | hc
    · rw [trimRight, if_pos hc,
        List.filter_cons_of_neg (by simp [h c hc.2])]
      calc ([] : List Char).filter q = (trimRight cs).filter q := by
            rw [hc.1]
        _ = cs.filter q := ih
    · rw [trimRight_cons_of_ne_nil hc]
      by_cases hq : q c
      · rw [List.filter_cons_of_pos hq, List.filter_cons_of_pos hq, ih]
      · rw [List.filter_cons_of_neg hq, List.filter_cons_of_neg hq, ih]

theorem filter_collapseWS {q : Char → Bool}
    (h : ∀ a, isWs a = true → q a = false) (l : List Char) :
    (collapseWS l).filter q = l.filter q := by
  induction l with
  | nil => rfl
  | cons c cs ih =>
    have hsp : q ' ' = false := h ' ' rfl
    cases cs with
    | nil =>
      by_cases hw : isWs c
      · simp [collapseWS, hw, h c hw, hsp]
      · simp [collapseWS, hw]
    | cons c2 rest =>
      rw [collapseWS]
      by_cases h1 : isWs c
      · rw [if_pos h1]
        by_cases h2 : isWs c2
        · rw [if_pos h2, ih]
          exact (List.filter_cons_of_neg (by simp [h c h1])).symm
        · rw [if_neg h2, List.filter_cons_of_neg (by simp [hsp]), ih]
          exact (List.filter_cons_of_neg (by simp [h c h1])).symm
      · rw [if_neg h1]
        by_cases hq : q c
        · rw [List.filter_cons_of_pos hq, List.filter_cons_of_pos hq, ih]
        · rw [List.filter_cons_of_neg hq, List.filter_cons_of_neg hq, ih]

theorem filter_strip {q : Char → Bool} {l : List Char}
    (h : ∀ a, isWs a = true → q a = false) :
    (strip l).filter q = l.filter q := by
  unfold strip
  rw [filter_trimRight h, filter_dropWhile h]

/-!
## Lemmas on the artifact cleaner
-/

theorem alnum_keeps_char {ch : Char} (hch : isAlnumB ch = false) :
    ∀ a : Char, isAlnumB a = true → (!(a == ch)) = true := by
  intro a ha
  by_cases h : a = ch
  · subst h; rw [ha] at hch; cases hch
  · simp [h]

theorem alnum_keeps_range :
    ∀ a : Char, isAlnumB a = true → (!(isPuaRange a)) = true := by
  intro a ha
  by_cases h : isPuaRange a
  · rw [pua_not_alnum h] at ha; cases ha
  · simp [h]

theorem filter_removeArtifacts (t : List Char) :
    (removeArtifacts t).filter isAlnumB = t.filter isAlnumB := by
  unfold removeArtifacts
  rw [filter_absorb alnum_keeps_range,
    filter_absorb (alnum_keeps_char (by decide)),
    filter_absorb (alnum_keeps_char (by decide)),
    filter_absorb (alnum_keeps_char (by decide)),
    filter_absorb (alnum_keeps_char (by decide)),
    filter_absorb (alnum_keeps_char (by decide)),
    filter_absorb (alnum_keeps_char (by decide))]

theorem mem_removeArtifacts {a : Char} {t : List Char}
    (h : a ∈ removeArtifacts t) :
    (!(a == Char.ofNat 0xF147)) = true ∧ (!(a == Char.ofNat 0xF007)) = true ∧
    (!(a == Char.ofNat 0xF0C9)) = true ∧ (!(a == Char.ofNat 0x2588)) = true ∧
    (!(a == Char.ofNat 0x2590)) = true ∧ (!(a == Char.ofNat 0x2591)) = true ∧
    (!(isPuaRange a)) = true := by
  unfold removeArtifacts at h
  obtain ⟨h, h7⟩ := List.mem_filter.mp h
  obtain ⟨h, h6⟩ := List.mem_filter.mp h
  obtain ⟨h, h5⟩ := List.mem_filter.mp h
  obtain ⟨h, h4⟩ := List.mem_filter.mp h
  obtain ⟨h, h3⟩ := List.mem_filter.mp h
  obtain ⟨h, h2⟩ := List.mem_filter.mp h
  obtain ⟨h, h1⟩ := List.mem_filter.mp h
  exact ⟨h1, h2, h3, h4, h5, h6, h7⟩

theorem removeArtifacts_eq_self {t : List Char}
    (h : ∀ a ∈ t,
      (!(a == Char.ofNat 0xF147)) = true ∧ (!(a == Char.ofNat 0xF007)) = true ∧
      (!(a == Char.ofNat 0xF0C9)) = true ∧ (!(a == Char.ofNat 0x2588)) = true ∧
      (!(a == Char.ofNat 0x2590)) = true ∧ (!(a == Char.ofNat 0x2591)) = true ∧
      (!(isPuaRange a)) = true) :
    removeArtifacts t = t := by
  unfold removeArtifacts
  rw [List.filter_eq_self.mpr (fun a ha => (h a ha).1),
    List.filter_eq_self.mpr (fun a ha => (h a ha).2.1),
    List.filter_eq_self.mpr (fun a ha => (h a ha).2.2.1),
    List.filter_eq_self.mpr (fun a ha => (h a ha).2.2.2.1),
    List.filter_eq_self.mpr (fun a ha => (h a ha).2.2.2.2.1),
    List.filter_eq_self.mpr (fun a ha => (h a ha).2.2.2.2.2.1),
    List.filter_eq_self.mpr (fun a ha => (h a ha).2.2.2.2.2.2)]

theorem mem_removeArtifacts_orig {a : Char} {t : List Char}
    (h : a ∈ removeArtifacts t) : a ∈ t := by
  unfold removeArtifacts at h
  exact (List.mem_filter.mp (List.mem_filter.mp (List.mem_filter.mp
    (List.mem_filter.mp (List.mem_filter.mp (List.mem_filter.mp
      (List.mem_filter.mp h).1).1).1).1).1).1).1

/-!
## Claim C8
-/

/-- C8: for every input string, the artifact cleaner
(`_clean_unicode_artifacts`) keeps exactly the alphanumeric characters of
the input, in order — the symbol removals, whitespace collapsing and
trimming touch only non-alphanumeric characters — and empty input yields
empty output. -/
theorem c8_cleaner_preserves_alnum :
    (∀ s : List Char,
      (cleanUnicodeArtifacts s).filter isAlnumB = s.filter isAlnumB) ∧
    cleanUnicodeArtifacts [] = [] := by
  refine ⟨fun s => ?_, rfl⟩
  unfold cleanUnicodeArtifacts
  by_cases hs : s = []
  · rw [if_pos hs]
  · rw [if_neg hs, filter_strip (fun a ha => isWs_not_alnum ha),
      filter_collapseWS (fun a ha => isWs_not_alnum ha),
      filter_removeArtifacts]

/-!
## Claim C6
-/

/-- C6 (counterexample): the PDF artifact cleaner `clean_pdf_artifacts` is
not idempotent — removing the standalone single-character line `a` from
`X\na\nb\nY` creates the new standalone line `b`, which only a second pass
removes. -/
theorem c6_pdf_cleaner_not_idempotent :
    cleanPdfArtifacts (cleanPdfArtifacts (lstr "X\na\nb\nY")) ≠
      cleanPdfArtifacts (lstr "X\na\nb\nY") := by decide

/-- C6 (amended): of the two artifact-cleaning functions the claim cites,
the Unicode-artifact cleaner of the robust parser is idempotent;
`clean_pdf_artifacts` is not (see the counterexample). -/
theorem c6_unicode_cleaner_idem :
    ∀ s : List Char,
      cleanUnicodeArtifacts (cleanUnicodeArtifacts s) =
        cleanUnicodeArtifacts s := by
  have cleanU_of_ne : ∀ {t : List Char}, t ≠ [] →
      cleanUnicodeArtifacts t = strip (collapseWS (removeArtifacts t)) := by
    intro t h
    unfold cleanUnicodeArtifacts
    rw [if_neg h]
  intro s
  by_cases hs : s = []
  · subst hs; rfl
  · have hu : cleanUnicodeArtifacts s =
        strip (collapseWS (removeArtifacts s)) := cleanU_of_ne hs
    by_cases hu0 : cleanUnicodeArtifacts s = []
    · rw [hu0]; rfl
    · rw [cleanU_of_ne hu0]
      have hmem : ∀ a ∈ cleanUnicodeArtifacts s,
          (!(a == Char.ofNat 0xF147)) = true ∧
          (!(a == Char.ofNat 0xF007)) = true ∧
          (!(a == Char.ofNat 0xF0C9)) = true ∧
          (!(a == Char.ofNat 0x2588)) = true ∧
          (!(a == Char.ofNat 0x2590)) = true ∧
          (!(a == Char.ofNat 0x2591)) = true ∧
          (!(isPuaRange a)) = true := by
        intro a ha
        rw [hu] at ha
        rcases mem_collapseWS (mem_strip ha) with h | h
        · exact mem_removeArtifacts h
        · subst h; decide
      rw [removeArtifacts_eq_self hmem]
      have hnorm : WsNorm (cleanUnicodeArtifacts s) := by
        rw [hu]; exact wsNorm_strip (collapseWS_wsNorm _)
      rw [collapseWS_eq_self hnorm, hu, strip_strip, ← hu]

/-!
## Claim C2
-/

theorem separateLoop_spec (qid : List Char) (pg : Nat) (src : List Char)
    (ls : List (List Char)) :
    (separateLoop qid pg src ls).1 =
      ls.filter (fun l => !(isCommunityComment l)) ∧
    (separateLoop qid pg src ls).2 =
      (ls.filter (fun l => isCommunityComment l)).map
        (fun l => extractCommunityComment l qid pg src) := by
  induction ls with
  | nil => exact ⟨rfl, rfl⟩
  | cons l ls ih =>
    rw [separateLoop]
    by_cases h : isCommunityComment l
    · simp only [h, List.filter_cons, Bool.not_true, if_pos, if_neg,
        Bool.false_eq_true, ite_false, ite_true, List.map_cons]
      exact ⟨ih.1, by rw [ih.2]⟩
    · have h' : isCommunityComment l = false := by simpa using h
      simp only [h', List.filter_cons, Bool.not_false, Bool.false_eq_true,
        ite_false, ite_true, List.map_cons]
      exact ⟨by rw [ih.1], ih.2⟩

/-- C2 (amended): the community-comment separation step classifies every
line of the block exactly one way, preserving relative order in both
output streams: the clean text is exactly the newline-join of the
non-community lines (kept verbatim), and the comment records carry, in
order, the *stripped* form of each community line as `content` (a line
that does not parse further still yields a record with the other fields
empty).  As stated, the claim fails only in that `content` is the stripped
line, not the raw line (see the counterexample). -/
theorem c2_separation_total :
    ∀ (text qid : List Char) (pg : Nat) (src : List Char),
      (separateCommunityComments text qid pg src).1 =
        joinNl ((splitLines text).filter (fun l => !(isCommunityComment l))) ∧
      ((separateCommunityComments text qid pg src).2).map
          (fun c => c.content) =
        ((splitLines text).filter (fun l => isCommunityComment l)).map
          strip := by
  intro text qid pg src
  refine ⟨?_, ?_⟩
  · show joinNl (separateLoop qid pg src (splitLines text)).1 = _
    rw [(separateLoop_spec qid pg src _).1]
  · show ((separateLoop qid pg src (splitLines text)).2).map _ = _
    rw [(separateLoop_spec qid pg src _).2, List.map_map]
    rfl

/-- C2 (counterexample): for the single line `" upvoted 2 times"` (leading
space), the line is classified as a community line, the clean text is
empty, and the produced comment record carries the stripped line — no
output stream contains the raw line itself. -/
theorem c2_raw_line_not_preserved :
    (separateCommunityComments (lstr " upvoted 2 times") (lstr "q") 1
        (lstr "s")).1 = [] ∧
    ((separateCommunityComments (lstr " upvoted 2 times") (lstr "q") 1
        (lstr "s")).2).map (fun c => c.content) = [lstr "upvoted 2 times"] ∧
    ¬ ∃ c ∈ (separateCommunityComments (lstr " upvoted 2 times") (lstr "q") 1
        (lstr "s")).2, c.content = lstr " upvoted 2 times" := by
  refine ⟨by decide, by decide, by decide⟩

/-!
## Claim C5
-/

/-- C5 (counterexample): a question with an empty description — the record
default — compared against itself yields similarity 0.0, not the claimed
1.0. -/
theorem c5_empty_description_self :
    calcSimilarity (QuestionR.description {}) (QuestionR.description {}) = 0 ∧
    (0 : ℚ) ≠ 1 := by
  constructor
  · show calcSimilarity [] [] = 0
    unfold calcSimilarity
    rw [if_pos (Or.inl rfl)]
  · norm_num

/-- C5 (amended): the description-similarity function is symmetric for all
inputs; and a question compared against itself yields 1.0 provided its
description contains at least one word (the claim fails only for
descriptions with no words, see the counterexample). -/
theorem c5_similarity_sym_self :
    (∀ t1 t2 : List Char, calcSimilarity t1 t2 = calcSimilarity t2 t1) ∧
    ∀ t : List Char, wordSet t ≠ ∅ → calcSimilarity t t = 1 := by
  constructor
  · intro t1 t2
    unfold calcSimilarity
    by_cases h1 : t1 = [] ∨ t2 = []
    · rw [if_pos h1, if_pos (Or.symm h1)]
    · rw [if_neg h1, if_neg (fun h => h1 (Or.symm h))]
      by_cases h2 : wordSet t1 = ∅ ∨ wordSet t2 = ∅
      · rw [if_pos h2, if_pos (Or.symm h2)]
      · rw [if_neg h2, if_neg (fun h => h2 (Or.symm h))]
        rw [Finset.inter_comm, Finset.union_comm]
  · intro t ht
    have ht0 : t ≠ [] := fun h => ht (by subst h; rfl)
    have hpos : 0 < (wordSet t).card :=
      Finset.card_pos.mpr (Finset.nonempty_iff_ne_empty.mpr ht)
    unfold calcSimilarity
    rw [if_neg (by simp [ht0]), if_neg (by simp [ht]),
      if_pos (by rw [Finset.union_self]; exact hpos),
      Finset.inter_self, Finset.union_self]
    exact div_self (by exact_mod_cast hpos.ne')

/-- Witness for C5: a concrete description with two words. -/
theorem c5_similarity_witness :
    wordSet (lstr "hello world") ≠ ∅ ∧
    calcSimilarity (lstr "hello world") (lstr "hello world") = 1 :=
  ⟨by decide, c5_similarity_sym_self.2 (lstr "hello world") (by decide)⟩

/-!
## Claim C4
-/

/-- C4 (counterexample): `qC4` has a 50-character description, three
options, no community answers and no number or topic; its confidence is
0.55 (55 hundredths), not the 0.4 the claim starts from. -/
theorem c4_before_score :
    calcConfidence qC4 = 55 ∧ (55 : Nat) ≠ 40 := ⟨by decide, by decide⟩

/-- C4 (amended): adding a 4th answer option to a question with a
description of at least 50 characters, no community answers, and no
detected number or topic raises its confidence score from 0.55 to at least
0.7 (scores in hundredths: from 55 to at least 70; the 0.4-point
description award plus the 0.3-point four-option award), all other fields
unchanged. -/
theorem c4_fourth_option_raises :
    ∀ (q : QuestionR) (o : Char × List Char),
      50 ≤ q.description.length → q.options.length = 3 →
      q.community_answer = [] → q.highly_voted_answer = [] →
      q.most_recent_answer = [] → q.original_number = [] → q.topic = [] →
      calcConfidence q = 55 ∧
        70 ≤ calcConfidence { q with options := q.options ++ [o] } := by
  intro q o hd ho hca hhv hmr hon ht
  have hdne : q.description ≠ [] := by
    intro h; rw [h] at hd; simp at hd
  have e1 : confDesc q = 40 := by
    unfold confDesc; rw [if_pos hdne, if_pos hd]
  have e3 : confComm q = 0 := by
    unfold confComm; rw [hca, hhv, hmr]; rfl
  have e4 : confStruct q = 0 := by
    unfold confStruct
    rw [if_neg (by simp [hon]), if_neg (by simp [hon, ht])]
  constructor
  · have e2 : confOpts q = 15 := by
      unfold confOpts
      rw [if_neg (show ¬ 4 ≤ q.options.length by omega),
        if_pos (show 2 ≤ q.options.length by omega)]
    unfold calcConfidence
    rw [e1, e2, e3, e4]
    omega
  · have e1' : confDesc { q with options := q.options ++ [o] } = 40 := e1
    have e2' : confOpts { q with options := q.options ++ [o] } = 30 := by
      show (if 4 ≤ (q.options ++ [o]).length then 30
        else if 2 ≤ (q.options ++ [o]).length then 15 else 0) = 30
      rw [if_pos (show 4 ≤ (q.options ++ [o]).length by
        simp [List.length_append, ho])]
    have e3' : confComm { q with options := q.options ++ [o] } = 0 := e3
    have e4' : confStruct { q with options := q.options ++ [o] } = 0 := e4
    unfold calcConfidence
    rw [e1', e2', e3', e4']
    omega

/-- Witness for C4: `qC4` with a concrete 4th option. -/
theorem c4_witness :
    (50 ≤ qC4.description.length ∧ qC4.options.length = 3) ∧
    calcConfidence qC4 = 55 ∧
      70 ≤ calcConfidence
        { qC4 with options := qC4.options ++ [('D', lstr "Pub/Sub")] } :=
  ⟨⟨by decide, by decide⟩,
   c4_fourth_option_raises qC4 ('D', lstr "Pub/Sub") (by decide) (by decide)
     rfl rfl rfl rfl rfl⟩

/-!
## Claim C7
-/

theorem splitLines_no_nl {l : List Char} (h : '\n' ∉ l) :
    splitLines l = [l] := by
  induction l with
  | nil => rfl
  | cons c cs ih =>
    have hcne : ¬ c = '\n' := fun hc => h (by rw [hc]; exact List.mem_cons_self _ _)
    rw [splitLines, if_neg hcne, ih (fun hm => h (List.mem_cons_of_mem c hm))]

theorem dropWhile_strip (body : List Char) :
    (strip body).dropWhile isWs = strip body := by
  show (trimRight (body.dropWhile isWs)).dropWhile isWs = _
  rw [dropTrim_comm, dropWhile_idem]
  rfl

theorem strip_head_not_ws {body : List Char} {d : Char} {ds : List Char}
    (h : strip body = d :: ds) : isWs d = false := by
  by_contra hw
  have hw' : isWs d = true := by simpa using hw
  have h1 := dropWhile_strip body
  rw [h, List.dropWhile_cons_of_pos hw'] at h1
  have h2 : (ds.dropWhile isWs).length ≤ ds.length :=
    (List.dropWhile_suffix isWs).length_le
  rw [h1] at h2
  simp at h2

theorem optBody_of_strip {body : List Char} (hnlb : '\n' ∉ body)
    (hB : strip body ≠ []) :
    optBody (trimRight (' ' :: body)) = some (strip body) := by
  obtain ⟨d, ds, hds⟩ : ∃ d ds, strip body = d :: ds := by
    cases h : strip body with
    | nil => exact absurd h hB
    | cons d ds => exact ⟨d, ds, rfl⟩
  have hdB : (trimRight (' ' :: body)).dropWhile isWs = strip body := by
    rw [dropTrim_comm, List.dropWhile_cons_of_pos (by decide : isWs ' ' = true)]
    rfl
  have hdw : isWs d = false := strip_head_not_ws hds
  unfold optBody
  rw [show descFrom0 ((trimRight (' ' :: body)).takeWhile isWs).length =
      ((trimRight (' ' :: body)).takeWhile isWs).length ::
        (List.range ((trimRight (' ' :: body)).takeWhile isWs).length).reverse by
    simp [descFrom0, List.range_succ]]
  rw [tryDrops]
  rw [show (trimRight (' ' :: body)).drop
        ((trimRight (' ' :: body)).takeWhile isWs).length =
      strip body by rw [← dropWhile_eq_drop]; exact hdB]
  have hdp : dotPlusAt (strip body) = some (strip body) := by
    rw [hds, dotPlusAt]
    rw [if_neg (by intro hc; rw [hc] at hdw; cases hdw)]
    rw [show (d :: ds).takeWhile (fun x => !(x == '\n')) = d :: ds from
      List.takeWhile_eq_self_iff.mpr ?_]
    intro x hx
    have hxb : x ∈ body := mem_strip (hds ▸ hx)
    have : ¬ x = '\n' := fun hc => hnlb (hc ▸ hxb)
    simp [this]
  rw [hdp]
  rfl

theorem optionStep_reject (opts : List (Char × List Char)) (c sep : Char)
    (body : List Char)
    (hcw : isWs c = false) (hletter : isOptLetterCI c = true)
    (hsw : isWs sep = false) (hsep : (sep == '.' || sep == ')') = true)
    (hnlb : '\n' ∉ body)
    (hrej : (strip body).length < 2 ∨
      ((strip body).length < 5 ∧ ¬ hasPathChar (strip body))) :
    optionStep opts (c :: sep :: ' ' :: body) = opts := by
  have hT : strip (c :: sep :: ' ' :: body) =
      c :: sep :: trimRight (' ' :: body) := by
    unfold strip
    rw [List.dropWhile_cons_of_neg (by simp [hcw]),
      trimRight_cons_of_ne_nil (fun h => absurd h.2 (by simp [hcw])),
      trimRight_cons_of_ne_nil (fun h => absurd h.2 (by simp [hsw]))]
  unfold optionStep
  rw [hT, if_neg (by simp)]
  by_cases hB : strip body = []
  · have hTnil : trimRight (' ' :: body) = [] := by
      have hall : ∀ x ∈ trimRight (' ' :: body), isWs x = true := by
        have h1 : (trimRight (' ' :: body)).dropWhile isWs = strip body := by
          rw [dropTrim_comm,
            List.dropWhile_cons_of_pos (by decide : isWs ' ' = true)]
          rfl
        rw [hB] at h1
        exact List.dropWhile_eq_nil_iff.mp h1
      calc trimRight (' ' :: body)
          = trimRight (trimRight (' ' :: body)) := (trimRight_idem _).symm
        _ = [] := trimRight_eq_nil_iff.mpr hall
    rw [hTnil]
    have hPnone : parseOptionLine (c :: sep :: ([] : List Char)) = none := by
      simp only [parseOptionLine]
      rw [if_pos (show (isOptLetterCI c && (sep == '.' || sep == ')')) = true
        by rw [hletter, hsep]; rfl)]
      rfl
    rw [hPnone]
  · have hP : parseOptionLine (c :: sep :: trimRight (' ' :: body)) =
        some (c.toUpper, strip body) := by
      simp only [parseOptionLine]
      rw [if_pos (show (isOptLetterCI c && (sep == '.' || sep == ')')) = true
        by rw [hletter, hsep]; rfl)]
      rw [optBody_of_strip hnlb hB]
    rw [hP]
    show (if voteNoise (strip (strip body)) then opts
      else if (strip (strip body)).length < 2 ∨
          ((strip (strip body)).length < 5 ∧
            ¬ hasPathChar (strip (strip body))) then opts
      else updOption opts c.toUpper
        (applyFixes ocrFixesOpt (strip (strip body)))) = opts
    rw [strip_strip]
    by_cases hv : voteNoise (strip body) = true
    · rw [if_pos hv]
    · rw [if_neg (by simp [hv]), if_pos hrej]

/-- C7: for every line of the form `<letter>. <body>` or `<letter>) <body>`
with a letter in A–F, a candidate body that strips to fewer than 2
characters is rejected, as is one that strips to fewer than 5 characters
containing no path-like or punctuation character (`~ / \ .`); in
particular `A. x` adds no option, while `A. ~/bin/script.sh` adds
option A. -/
theorem c7_option_noise_rejected :
    (∀ (c sep : Char) (body : List Char),
      c ∈ [ 'A', 'B', 'C', 'D', 'E', 'F' ] → (sep = '.' ∨ sep = ')') →
      '\n' ∉ body →
      ((strip body).length < 2 ∨
        ((strip body).length < 5 ∧ ¬ hasPathChar (strip body))) →
      extractAnswerOptions (c :: sep :: ' ' :: body) = []) ∧
    extractAnswerOptions (lstr "A. x") = [] ∧
    extractAnswerOptions (lstr "A. ~/bin/script.sh") =
      [('A', lstr "~/bin/script.sh")] := by
  refine ⟨?_, by decide, by decide⟩
  intro c sep body hc hsep hnlb hrej
  have hcf : isWs c = false ∧ isOptLetterCI c = true ∧ ¬ ('\n' = c) := by
    simp only [List.mem_cons, List.not_mem_nil, or_false] at hc
    rcases hc with rfl | rfl | rfl | rfl | rfl | rfl <;>
      exact ⟨rfl, rfl, by decide⟩
  have hsf : isWs sep = false ∧ (sep == '.' || sep == ')') = true ∧
      ¬ ('\n' = sep) := by
    rcases hsep with rfl | rfl <;> exact ⟨rfl, rfl, by decide⟩
  have hnl' : '\n' ∉ (c :: sep :: ' ' :: body) := by
    intro h
    rcases List.mem_cons.mp h with h | h
    · exact hcf.2.2 h
    rcases List.mem_cons.mp h with h | h
    · exact hsf.2.2 h
    rcases List.mem_cons.mp h with h | h
    · cases h
    · exact hnlb h
  unfold extractAnswerOptions
  rw [splitLines_no_nl hnl', List.foldl_cons, List.foldl_nil]
  exact optionStep_reject [] c sep body hcf.1 hcf.2.1 hsf.1 hsf.2.1 hnlb hrej

/-- Witness for C7: the 1-character body `q` (with a path-free strip) is
rejected for every option letter; instantiated at letter `A` and
separator `.`. -/
theorem c7_witness :
    ('A' ∈ [ 'A', 'B', 'C', 'D', 'E', 'F' ] ∧ ('.' : Char) = '.' ∧
      '\n' ∉ lstr "q" ∧ (strip (lstr "q")).length < 2) ∧
    extractAnswerOptions ('A' :: '.' :: ' ' :: lstr "q") = [] :=
  ⟨⟨by decide, rfl, by decide, by decide⟩,
   c7_option_noise_rejected.1 'A' '.' (lstr "q") (by decide) (Or.inl rfl)
     (by decide) (Or.inl (by decide))⟩

/-!
## Claim C10
-/

/-- C10: `parse_question_structure` returns `None` for every block whose
stripped length is below the configured minimum question length, whatever
the block contains. -/
theorem c10_short_block_rejected :
    ∀ (minLen : Nat) (block : List Char) (page : Nat) (src : List Char)
      (counter : Nat),
      (strip block).length < minLen →
      (parseQuestionStructure minLen block page src counter).1 = none := by
  intro minLen block page src counter h
  unfold parseQuestionStructure
  rw [if_pos (Or.inr h)]

/-- Witness for C10: a block containing a valid marker, a description line
and two options, but only 33 characters long, is rejected at the default
minimum length 50. -/
theorem c10_witness :
    (strip (lstr "Question #1 Topic 1\nA. abc\nB. def")).length <
        defaultMinLen ∧
    (parseQuestionStructure defaultMinLen
        (lstr "Question #1 Topic 1\nA. abc\nB. def") 1 (lstr "t.pdf") 0).1 =
      none :=
  ⟨by decide,
   c10_short_block_rejected defaultMinLen
     (lstr "Question #1 Topic 1\nA. abc\nB. def") 1 (lstr "t.pdf") 0
     (by decide)⟩

/-!
## Claim C1
-/

/-- C1: evaluation of `parse_question_structure` on the specification's
end-to-end scenario block.  The original number is "7", the options map is
exactly the four claimed entries, and exactly one community comment with
vote count 3 is recorded — but the community answer is "D", not the
claimed "B": the extraction regex `[A-F](?=\s|$|\.)` matches the final
letter of the word "SELECTED" in `Selected Answer: B` before it can reach
the `B`. -/
theorem c1_scenario_eval :
    ((parseQuestionStructure defaultMinLen scenC1 2 (lstr "test.pdf") 0).1.map
        (fun q => q.original_number)) = some (lstr "7") ∧
    ((parseQuestionStructure defaultMinLen scenC1 2 (lstr "test.pdf") 0).1.map
        (fun q => q.options)) =
      some [('A', lstr "Compute Engine"), ('B', lstr "Cloud Storage"),
            ('C', lstr "BigQuery"), ('D', lstr "Pub/Sub")] ∧
    ((parseQuestionStructure defaultMinLen scenC1 2 (lstr "test.pdf") 0).1.map
        (fun q => q.community_answer)) = some (lstr "D") ∧
    (((parseQuestionStructure defaultMinLen scenC1 2
        (lstr "test.pdf") 0).2.2).filter
      (fun c => c.vote_count == 3)).length = 1 := by
  exact ⟨by decide, by decide, by decide, by decide⟩

/-!
## Claim C3
-/

/-- C3 (counterexample): on a five-marker synthetic document whose option
lines are longer than 15 characters, boundary detection still returns
exactly 5 spans, but the 20-line backward context window copies question
1's option lines into question 2's span — an option line of a different
question. -/
theorem c3_long_options_leak :
    (identifyQuestionBoundaries [c3PageLong]).length = 5 ∧
    ((identifyQuestionBoundaries [c3PageLong]).getD 0 {}).question_header =
      lstr "Question #1 Topic 1" ∧
    ((identifyQuestionBoundaries [c3PageLong]).getD 1 {}).question_header =
      lstr "Question #2 Topic 1" ∧
    lstr "A. option text number a1" ∈
      ((identifyQuestionBoundaries [c3PageLong]).getD 1 {}).content_lines := by
  exact ⟨by decide, by decide, by decide, by decide⟩

/-- C3 (amended): for the synthetic five-marker document whose option
lines are at most 15 characters long (so the backward context filter
excludes them), boundary detection returns exactly 5 spans in document
order, and each span's collected lines contain that question's own 4
option lines and no option line of another question — only the bare
marker lines of earlier questions are carried as backward context. -/
theorem c3_boundaries_cover :
    (identifyQuestionBoundaries [c3PageShort]).map
        (fun b => b.question_header) =
      [lstr "Question #1 Topic 1", lstr "Question #2 Topic 1",
       lstr "Question #3 Topic 1", lstr "Question #4 Topic 1",
       lstr "Question #5 Topic 1"] ∧
    (identifyQuestionBoundaries [c3PageShort]).map
        (fun b => b.start_line) = [0, 5, 10, 15, 20] ∧
    (identifyQuestionBoundaries [c3PageShort]).map
        (fun b => b.content_lines) =
      [[lstr "Question #1 Topic 1",
        lstr "A. opt a1", lstr "B. opt b1", lstr "C. opt c1", lstr "D. opt d1"],
       [lstr "Question #1 Topic 1", lstr "Question #2 Topic 1",
        lstr "A. opt a2", lstr "B. opt b2", lstr "C. opt c2", lstr "D. opt d2"],
       [lstr "Question #1 Topic 1", lstr "Question #2 Topic 1",
        lstr "Question #3 Topic 1",
        lstr "A. opt a3", lstr "B. opt b3", lstr "C. opt c3", lstr "D. opt d3"],
       [lstr "Question #1 Topic 1", lstr "Question #2 Topic 1",
        lstr "Question #3 Topic 1", lstr "Question #4 Topic 1",
        lstr "A. opt a4", lstr "B. opt b4", lstr "C. opt c4", lstr "D. opt d4"],
       [lstr "Question #1 Topic 1", lstr "Question #2 Topic 1",
        lstr "Question #3 Topic 1", lstr "Question #4 Topic 1",
        lstr "Question #5 Topic 1",
        lstr "A. opt a5", lstr "B. opt b5", lstr "C. opt c5",
        lstr "D. opt d5"]] := by
  exact ⟨by decide, by decide, by decide⟩

/-!
## Claim C9
-/

theorem digitCh_toNat {d : Nat} (h : d < 10) :
    (Char.ofNat (48 + d)).toNat = 48 + d := by
  interval_cases d <;> decide

theorem digitCh_isDigit {d : Nat} (h : d < 10) :
    isDigitB (Char.ofNat (48 + d)) = true := by
  interval_cases d <;> decide

theorem digitCh_inj {d e : Nat} (hd : d < 10) (he : e < 10)
    (h : Char.ofNat (48 + d) = Char.ofNat (48 + e)) : d = e := by
  have := congrArg Char.toNat h
  rw [digitCh_toNat hd, digitCh_toNat he] at this
  omega

theorem natReprAux_eq (fuel : Nat) :
    ∀ n : Nat, n ≤ fuel →
      natReprAux fuel n =
        (Nat.digits 10 n).map (fun d => Char.ofNat (48 + d)) := by
  induction fuel with
  | zero =>
    intro n h
    have : n = 0 := Nat.le_zero.mp h
    subst this
    simp [natReprAux]
  | succ fuel ih =>
    intro n h
    rw [natReprAux]
    by_cases hn : n = 0
    · subst hn; simp
    · rw [if_neg hn,
        Nat.digits_def' (by norm_num : (1 : Nat) < 10) (Nat.pos_of_ne_zero hn),
        List.map_cons]
      congr 1
      refine ih (n / 10) ?_
      have := Nat.div_lt_self (Nat.pos_of_ne_zero hn) (by norm_num : 1 < 10)
      omega

theorem natRepr_eq (n : Nat) :
    natRepr n = if n = 0 then [ '0' ]
      else ((Nat.digits 10 n).map (fun d => Char.ofNat (48 + d))).reverse := by
  unfold natRepr
  by_cases hn : n = 0
  · rw [if_pos hn, if_pos hn]
  · rw [if_neg hn, if_neg hn, natReprAux_eq n n (Nat.le_refl n)]

theorem natRepr_digits (n : Nat) : ∀ c ∈ natRepr n, isDigitB c = true := by
  intro c hc
  rw [natRepr_eq] at hc
  by_cases h : n = 0
  · rw [if_pos h] at hc
    simp only [List.mem_singleton] at hc
    subst hc; decide
  · rw [if_neg h, List.mem_reverse] at hc
    obtain ⟨d, hd, rfl⟩ := List.mem_map.mp hc
    exact digitCh_isDigit (Nat.digits_lt_base (by norm_num) hd)

theorem mapDigitCh_inj :
    ∀ (xs ys : List Nat), (∀ x ∈ xs, x < 10) → (∀ y ∈ ys, y < 10) →
      xs.map (fun d => Char.ofNat (48 + d)) =
        ys.map (fun d => Char.ofNat (48 + d)) →
      xs = ys := by
  intro xs
  induction xs with
  | nil =>
    intro ys _ _ h
    cases ys with
    | nil => rfl
    | cons y ys => simp at h
  | cons x xs ih =>
    intro ys hx hy h
    cases ys with
    | nil => simp at h
    | cons y ys =>
      simp only [List.map_cons, List.cons.injEq] at h
      have hxy : x = y :=
        digitCh_inj (hx x (List.mem_cons_self _ _))
          (hy y (List.mem_cons_self _ _)) h.1
      subst hxy
      rw [ih ys (fun a ha => hx a (List.mem_cons_of_mem _ ha))
        (fun a ha => hy a (List.mem_cons_of_mem _ ha)) h.2]

theorem digits_singleton_zero {n : Nat} (h : Nat.digits 10 n = [0]) :
    n = 0 := by
  have := Nat.ofDigits_digits 10 n
  rw [h] at this
  simpa [Nat.ofDigits] using this.symm

theorem natRepr_inj {m n : Nat} (h : natRepr m = natRepr n) : m = n := by
  rw [natRepr_eq, natRepr_eq] at h
  by_cases hm : m = 0 <;> by_cases hn : n = 0
  · rw [hm, hn]
  · exfalso
    rw [if_pos hm, if_neg hn] at h
    have h' : (Nat.digits 10 n).map (fun d => Char.ofNat (48 + d)) =
        [ '0' ] := by
      have := congrArg List.reverse h
      simpa using this.symm
    cases hdig : Nat.digits 10 n with
    | nil => rw [hdig] at h'; simp at h'
    | cons d ds =>
      cases ds with
      | nil =>
        rw [hdig] at h'
        simp only [List.map_cons, List.map_nil, List.cons.injEq] at h'
        have hd10 : d < 10 :=
          Nat.digits_lt_base (by norm_num)
            (by rw [hdig]; exact List.mem_cons_self _ _)
        have : d = 0 := by
          have := congrArg Char.toNat h'.1
          rw [digitCh_toNat hd10] at this
          simp only [show ('0').toNat = 48 from rfl] at this
          omega
        subst this
        exact hn (digits_singleton_zero hdig)
      | cons e es => rw [hdig] at h'; simp at h'
  · exfalso
    rw [if_neg hm, if_pos hn] at h
    have h' : (Nat.digits 10 m).map (fun d => Char.ofNat (48 + d)) =
        [ '0' ] := by
      have := congrArg List.reverse h
      simpa using this
    cases hdig : Nat.digits 10 m with
    | nil => rw [hdig] at h'; simp at h'
    | cons d ds =>
      cases ds with
      | nil =>
        rw [hdig] at h'
        simp only [List.map_cons, List.map_nil, List.cons.injEq] at h'
        have hd10 : d < 10 :=
          Nat.digits_lt_base (by norm_num)
            (by rw [hdig]; exact List.mem_cons_self _ _)
        have : d = 0 := by
          have := congrArg Char.toNat h'.1
          rw [digitCh_toNat hd10] at this
          simp only [show ('0').toNat = 48 from rfl] at this
          omega
        subst this
        exact hm (digits_singleton_zero hdig)
      | cons e es => rw [hdig] at h'; simp at h'
  · rw [if_neg hm, if_neg hn] at h
    have h' : (Nat.digits 10 m).map (fun d => Char.ofNat (48 + d)) =
        (Nat.digits 10 n).map (fun d => Char.ofNat (48 + d)) := by
      have := congrArg List.reverse h
      simpa using this
    have hdig : Nat.digits 10 m = Nat.digits 10 n :=
      mapDigitCh_inj _ _
        (fun x hx => Nat.digits_lt_base (by norm_num) hx)
        (fun y hy => Nat.digits_lt_base (by norm_num) hy) h'
    have := congrArg (Nat.ofDigits 10) hdig
    rwa [Nat.ofDigits_digits, Nat.ofDigits_digits] at this

theorem append_und_inj :
    ∀ (a1 b1 a2 b2 : List Char),
      (∀ c ∈ a1, isDigitB c = true) → (∀ c ∈ a2, isDigitB c = true) →
      a1 ++ '_' :: b1 = a2 ++ '_' :: b2 → a1 = a2 ∧ b1 = b2 := by
  intro a1
  induction a1 with
  | nil =>
    intro b1 a2 b2 _ h2 he
    cases a2 with
    | nil => simpa using he
    | cons x xs =>
      exfalso
      simp only [List.nil_append, List.cons_append, List.cons.injEq] at he
      have := h2 x (List.mem_cons_self _ _)
      rw [← he.1] at this
      cases this
  | cons x xs ih =>
    intro b1 a2 b2 h1 h2 he
    cases a2 with
    | nil =>
      exfalso
      simp only [List.nil_append, List.cons_append, List.cons.injEq] at he
      have := h1 x (List.mem_cons_self _ _)
      rw [he.1] at this
      cases this
    | cons y ys =>
      simp only [List.cons_append, List.cons.injEq] at he
      obtain ⟨hxy, hrest⟩ := he
      have := ih b1 ys b2 (fun c hc => h1 c (List.mem_cons_of_mem _ hc))
        (fun c hc => h2 c (List.mem_cons_of_mem _ hc)) hrest
      exact ⟨by rw [hxy, this.1], this.2⟩

theorem mkIdL_inj_tag {p1 p2 : Nat} {t1 t2 : List Char}
    (h : mkIdL p1 t1 = mkIdL p2 t2) : t1 = t2 := by
  unfold mkIdL at h
  simp only [List.cons.injEq, true_and] at h
  exact (append_und_inj _ _ _ _ (natRepr_digits p1) (natRepr_digits p2) h).2

theorem parseQS_cases (minLen : Nat) (block : List Char) (page : Nat)
    (src : List Char) (counter : Nat)
    (hnum : extractQuestionNumber block = none) :
    ((parseQuestionStructure minLen block page src counter).1 = none ∧
      (parseQuestionStructure minLen block page src counter).2.1 = counter) ∨
    ((parseQuestionStructure minLen block page src counter).2.1 =
        counter + 1 ∧
      ∃ q, (parseQuestionStructure minLen block page src counter).1 =
          some q ∧
        q.unique_id = mkIdL page (natRepr (counter + 1))) := by
  by_cases hg : block = [] ∨ (strip block).length < minLen
  · left
    constructor <;> simp [parseQuestionStructure, hg]
  · right
    refine ⟨by simp [parseQuestionStructure, hg, hnum], ?_⟩
    have hm : (parseQuestionStructure minLen block page src counter).1.map
        (fun q => q.unique_id) = some (mkIdL page (natRepr (counter + 1))) := by
      simp [parseQuestionStructure, hg, hnum]
    cases hq : (parseQuestionStructure minLen block page src counter).1 with
    | none => rw [hq] at hm; cases hm
    | some q => rw [hq] at hm; exact ⟨q, rfl, by simpa using hm⟩

theorem appendRun_none {r : Option QuestionR × Nat × List CommentR}
    (h : r.1 = none) (rest : Nat → List QuestionR × Nat × List CommentR) :
    appendRun r rest =
      ((rest r.2.1).1, (rest r.2.1).2.1, r.2.2 ++ (rest r.2.1).2.2) := by
  simp [appendRun, h]

theorem appendRun_some {r : Option QuestionR × Nat × List CommentR}
    {q0 : QuestionR} (h : r.1 = some q0)
    (rest : Nat → List QuestionR × Nat × List CommentR) :
    appendRun r rest =
      (if 30 ≤ q0.confidence_score then q0 :: (rest r.2.1).1
       else (rest r.2.1).1,
       (rest r.2.1).2.1, r.2.2 ++ (rest r.2.1).2.2) := by
  by_cases hc : 30 ≤ q0.confidence_score
  · simp [appendRun, h, hc]
  · simp [appendRun, h, hc]

theorem run_fallback_ids (minLen : Nat) :
    ∀ (bs : List BoundaryR) (c : Nat),
      (∀ b ∈ bs, extractQuestionNumber b.full_content = none) →
      ∀ q ∈ (runParseQuestions minLen bs c).1,
        ∃ p k, c < k ∧ q.unique_id = mkIdL p (natRepr k) := by
  intro bs
  induction bs with
  | nil =>
    intro c _ q hq
    simp [runParseQuestions] at hq
  | cons b bs ih =>
    intro c h q hq
    have hb := h b (List.mem_cons_self _ _)
    have hbs := fun b' hb' => h b' (List.mem_cons_of_mem b hb')
    rw [runParseQuestions] at hq
    rcases parseQS_cases minLen b.full_content b.start_page b.source_file c
        hb with ⟨h1, h2⟩ | ⟨h2, q0, h1, huid⟩
    · rw [appendRun_none h1, h2] at hq
      exact ih c hbs q hq
    · rw [appendRun_some h1, h2] at hq
      by_cases hc : 30 ≤ q0.confidence_score
      · rw [if_pos hc] at hq
        rcases List.mem_cons.mp hq with rfl | hq'
        · exact ⟨b.start_page, c + 1, Nat.lt_succ_self c, huid⟩
        · obtain ⟨p, k, hk, hid⟩ := ih (c + 1) hbs q hq'
          exact ⟨p, k, Nat.lt_of_succ_lt hk, hid⟩
      · rw [if_neg hc] at hq
        obtain ⟨p, k, hk, hid⟩ := ih (c + 1) hbs q hq
        exact ⟨p, k, Nat.lt_of_succ_lt hk, hid⟩

/-- C9 (counterexample): two boundaries on the same page whose blocks both
carry the printed number 7 are both parsed and kept in one run, and both
receive the id `Q1_7` — the uniqueness invariant fails. -/
theorem c9_duplicate_ids :
    ((runParseQuestions defaultMinLen [c9Boundary, c9Boundary] 0).1.map
        (fun q => q.unique_id)) = [lstr "Q1_7", lstr "Q1_7"] ∧
    ¬ ((runParseQuestions defaultMinLen [c9Boundary, c9Boundary] 0).1.map
        (fun q => q.unique_id)).Pairwise (· ≠ ·) := by
  exact ⟨by decide, by decide⟩

/-- C9 (amended): ids are pairwise distinct for the questions produced via
the fallback monotonic counter — in any run whose blocks carry no
detectable question number, no two produced Questions share an id.  (With
detected numbers the invariant fails: two blocks on one page with the same
printed number collide, see the counterexample.) -/
theorem c9_fallback_ids_distinct :
    ∀ (minLen : Nat) (bs : List BoundaryR) (c0 : Nat),
      (∀ b ∈ bs, extractQuestionNumber b.full_content = none) →
      ((runParseQuestions minLen bs c0).1.map
        (fun q => q.unique_id)).Pairwise (· ≠ ·) := by
  intro minLen bs
  induction bs with
  | nil => intro c0 _; simp [runParseQuestions]
  | cons b bs ih =>
    intro c0 h
    have hb := h b (List.mem_cons_self _ _)
    have hbs := fun b' hb' => h b' (List.mem_cons_of_mem b hb')
    rw [runParseQuestions]
    rcases parseQS_cases minLen b.full_content b.start_page b.source_file c0
        hb with ⟨h1, h2⟩ | ⟨h2, q0, h1, huid⟩
    · rw [appendRun_none h1, h2]
      exact ih c0 hbs
    · rw [appendRun_some h1, h2]
      by_cases hc : 30 ≤ q0.confidence_score
      · rw [if_pos hc]
        simp only [List.map_cons]
        refine List.pairwise_cons.mpr ⟨?_, ih (c0 + 1) hbs⟩
        intro uid' huid'
        obtain ⟨q', hq', rfl⟩ := List.mem_map.mp huid'
        obtain ⟨p, k, hk, hid⟩ :=
          run_fallback_ids minLen bs (c0 + 1) hbs q' hq'
        rw [huid, hid]
        intro heq
        have htag := mkIdL_inj_tag heq
        have := natRepr_inj htag
        omega
      · rw [if_neg hc]
        exact ih (c0 + 1) hbs

/-- Witness for C9 (amended): two fallback blocks with no detectable
number, parsed in one run from counter 0. -/
theorem c9_fallback_witness :
    (∀ b ∈ [c9FallA, c9FallB], extractQuestionNumber b.full_content = none) ∧
    ((runParseQuestions defaultMinLen [c9FallA, c9FallB] 0).1.map
      (fun q => q.unique_id)).Pairwise (· ≠ ·) :=
  ⟨by decide,
   c9_fallback_ids_distinct defaultMinLen [c9FallA, c9FallB] 0 (by decide)⟩

end Examiner
